import Mathlib

/-!
# Episodely — verification of the watch-state derivation and categorization engine

A shallow embedding of the core of `keenfann/episodely`:

* the server-side derivation function `computeShowState` and the per-show
  listing assembly in `listShowsForProfile` (`server/index.js`);
* the client-side predictive copy `computeShowStats` (`src/App.jsx`);
* the mutation endpoints (episode toggle, season toggle, status override),
  the categorizer (`GET /api/shows`), and profile export / import,
  modelled over an explicit relational state mirroring the SQLite schema
  (`server/db.js`).

JavaScript strings are modelled as Lean `String`; the embedding carries its
own character-level comparison (`strLe`) and ASCII lowering (`strLower`)
because the code compares date strings with `<=` / `localeCompare` and
lowercases status strings, and those are code-unit-wise operations on the
ASCII data involved.  Nullable TEXT columns are `Option String`, and
JavaScript truthiness of such a value (`null`, `''` falsy) is `strTruthy`.
-/

namespace Episodely

/-- Code-unit-wise `<=` on character lists, the order JavaScript's string
`<=` uses (for the ASCII dates and names involved it agrees with
`localeCompare`-based sorting). -/
def charListLe : List Char → List Char → Bool
  | [], _ => true
  | _ :: _, [] => false
  | a :: as, b :: bs => if a = b then charListLe as bs else decide (a < b)

/-- JavaScript string `<=`. -/
def strLe (a b : String) : Bool := charListLe a.data b.data

/-- ASCII lowering of one character, as `String.prototype.toLowerCase`
acts on the ASCII status strings (`"Ended"`, `"Running"`, ...). -/
def lowerChar (c : Char) : Char :=
  if 65 ≤ c.toNat ∧ c.toNat ≤ 90 then Char.ofNat (c.toNat + 32) else c

/-- JavaScript `toLowerCase` on ASCII strings. -/
def strLower (s : String) : String := ⟨s.data.map lowerChar⟩

/-- JavaScript truthiness of a nullable string value: `null` and `''` are
falsy, every other string is truthy. -/
def strTruthy : Option String → Bool
  | none => false
  | some s => !(s == "")

/-- JavaScript `x || d` for a nullable string `x` and string default `d`. -/
def jsOrStr : Option String → String → String
  | none, d => d
  | some s, d => if s == "" then d else s

/-- Release predicate.  The server implementation lives in
`server/utils.js`, which is not among the sources here (only its unit tests
are).  Modelled from the spec §4.1 and those tests: released iff the
airdate is present (truthy) and `airdate <= asOf`, `YYYY-MM-DD` strings
compared as strings.  The client copy in `src/App.jsx` is literally
`if (!airdate) return false; return airdate <= getTodayDate();`, which is
this function with `asOf` the device's current date. -/
def isReleased (airdate : Option String) (asOf : String) : Bool :=
  match airdate with
  | none => false
  | some d => if d == "" then false else strLe d asOf

/-- Distinct keys in first-occurrence order, as iterating a JavaScript
`Map` built by pushing into per-key groups visits the keys. -/
def dedupKeys : List Int → List Int
  | [] => []
  | x :: xs => x :: (dedupKeys xs).filter (fun y => !(y == x))

/-! ## Server-side derivation (`computeShowState`, `server/index.js` 291–361) -/

/-- The show columns `computeShowState` reads: `shows.status` and the
profile link's `status` joined in as `profile_status`. -/
structure SrvShow where
  status : Option String
  profile_status : Option String
deriving DecidableEq

/-- An episode row as seen by the server derivation: the `episodes` columns
it reads plus the `watched_at` column LEFT-JOINed from `profile_episodes`
(`none` = no watch mark). -/
structure SrvEpisode where
  id : Nat
  season : Int
  airdate : Option String
  watched_at : Option String
deriving DecidableEq

/-- `hasPartiallyWatchedSeason` of `computeShowState`: group the episodes
by season; true iff some season has at least one released episode and its
released-watched count is strictly between 0 and its released count. -/
def hasPartiallyWatchedSeason (eps : List SrvEpisode) (asOf : String) : Bool :=
  (dedupKeys (eps.map (fun e => e.season))).any fun s =>
    let seasonEpisodes := eps.filter (fun e => e.season == s)
    let seasonReleased := seasonEpisodes.filter (fun e => isReleased e.airdate asOf)
    if seasonReleased.length == 0 then false
    else
      let watchedReleased := (seasonReleased.filter (fun e => strTruthy e.watched_at)).length
      decide (0 < watchedReleased) && decide (watchedReleased < seasonReleased.length)

/-- What `computeShowState` returns. -/
structure SrvStateResult where
  state : String
  releasedEpisodes : List SrvEpisode
  releasedUnwatched : List SrvEpisode
  watchedCount : Nat
  hasFuture : Bool
deriving DecidableEq

/-- Server `computeShowState` (`server/index.js` 291–361), with the ambient
`getTodayDate()` read made the explicit `asOf` parameter. -/
def computeShowState (shw : SrvShow) (showEpisodes : List SrvEpisode) (asOf : String) :
    SrvStateResult :=
  let releasedEpisodes := showEpisodes.filter (fun e => isReleased e.airdate asOf)
  let releasedUnwatched := releasedEpisodes.filter (fun e => !strTruthy e.watched_at)
  let hasPartial := hasPartiallyWatchedSeason showEpisodes asOf
  let watchedCount := (showEpisodes.filter (fun e => strTruthy e.watched_at)).length
  let started := decide (0 < watchedCount)
  let hasReleased := decide (0 < releasedEpisodes.length)
  let hasFuture := showEpisodes.any (fun e => strTruthy e.airdate && !isReleased e.airdate asOf)
  let isEnded := strLower (jsOrStr shw.status "") == "ended"
  let allReleasedWatched := hasReleased && releasedUnwatched.length == 0
  let allEpisodesWatched :=
    decide (0 < showEpisodes.length) && showEpisodes.all (fun e => strTruthy e.watched_at)
  let state :=
    if shw.profile_status == some "stopped" then "stopped"
    else if hasPartial then "watching"
    else if started && decide (0 < releasedUnwatched.length) then "watch-next"
    else if !started && hasReleased then "queued"
    else if started && allReleasedWatched && !isEnded then "up-to-date"
    else if isEnded && allEpisodesWatched then "completed"
    else if !hasReleased then "queued"
    else "up-to-date"
  ⟨state, releasedEpisodes, releasedUnwatched, watchedCount, hasFuture⟩

/-- The sort key `(e.airdate || '')` used for next-episode selection. -/
def episodeSortKey (e : SrvEpisode) : String := jsOrStr e.airdate ""

/-- `xs.slice().sort((a, b) => key(a).localeCompare(key(b)))[0]` for a
stable sort: the first element of the list whose key is minimal
(`none` on the empty list, i.e. JavaScript `undefined`). -/
def firstMinByKey {α : Type} (key : α → String) : List α → Option α
  | [] => none
  | x :: xs =>
    match firstMinByKey key xs with
    | none => some x
    | some y => if strLe (key x) (key y) then some x else some y

/-- The aggregate counters of a show listing entry. -/
structure ShowStats where
  totalEpisodes : Nat
  watchedEpisodes : Nat
  releasedEpisodes : Nat
  releasedUnwatched : Nat
  hasFuture : Bool
deriving DecidableEq

/-- The derived part of one entry of `listShowsForProfile`'s result. -/
structure SrvListing where
  state : String
  stats : ShowStats
  nextEpisode : Option SrvEpisode
deriving DecidableEq

/-- The derivation part of `listShowsForProfile` (`server/index.js`
543–582): run `computeShowState`, pick `nextEpisode` as the first of the
airdate-sorted released-unwatched episodes, else the first of the
airdate-sorted future episodes, else absent, and assemble the stats. -/
def serverShowListing (shw : SrvShow) (showEpisodes : List SrvEpisode) (asOf : String) :
    SrvListing :=
  let r := computeShowState shw showEpisodes asOf
  let nextUnwatched := firstMinByKey episodeSortKey r.releasedUnwatched
  let nextFuture := firstMinByKey episodeSortKey
    (showEpisodes.filter (fun e => strTruthy e.airdate && !isReleased e.airdate asOf))
  { state := r.state
    stats :=
      { totalEpisodes := showEpisodes.length
        watchedEpisodes := r.watchedCount
        releasedEpisodes := r.releasedEpisodes.length
        releasedUnwatched := r.releasedUnwatched.length
        hasFuture := r.hasFuture }
    nextEpisode := nextUnwatched.orElse (fun _ => nextFuture) }

/-! ## Client-side predictive copy (`computeShowStats`, `src/App.jsx` 142–220) -/

/-- The show fields the client copy reads: `status` and `profileStatus`. -/
structure CliShow where
  status : Option String
  profileStatus : Option String
deriving DecidableEq

/-- A client-side episode snapshot: the watch mark is the boolean
`watched` flag instead of a `watched_at` timestamp. -/
structure CliEpisode where
  id : Nat
  season : Int
  airdate : Option String
  watched : Bool
deriving DecidableEq

/-- Client `hasPartiallyWatchedSeason` (inside `computeShowStats`). -/
def cliHasPartiallyWatchedSeason (eps : List CliEpisode) (asOf : String) : Bool :=
  (dedupKeys (eps.map (fun e => e.season))).any fun s =>
    let seasonEpisodes := eps.filter (fun e => e.season == s)
    let seasonReleased := seasonEpisodes.filter (fun e => isReleased e.airdate asOf)
    if seasonReleased.length == 0 then false
    else
      let watchedReleased := (seasonReleased.filter (fun e => e.watched)).length
      decide (0 < watchedReleased) && decide (watchedReleased < seasonReleased.length)

/-- Client sort key `(e.airdate || '')`. -/
def cliEpisodeSortKey (e : CliEpisode) : String := jsOrStr e.airdate ""

/-- What the client `computeShowStats` returns. -/
structure CliListing where
  state : String
  stats : ShowStats
  nextEpisode : Option CliEpisode
deriving DecidableEq

/-- Client `computeShowStats` (`src/App.jsx` 142–220), with the ambient
`getTodayDate()` read made the explicit `asOf` parameter. -/
def computeShowStats (shw : CliShow) (episodes : List CliEpisode) (asOf : String) :
    CliListing :=
  let releasedEpisodes := episodes.filter (fun e => isReleased e.airdate asOf)
  let releasedUnwatched := releasedEpisodes.filter (fun e => !e.watched)
  let hasPartial := cliHasPartiallyWatchedSeason episodes asOf
  let watchedCount := (episodes.filter (fun e => e.watched)).length
  let started := decide (0 < watchedCount)
  let hasReleased := decide (0 < releasedEpisodes.length)
  let hasFuture := episodes.any (fun e => strTruthy e.airdate && !isReleased e.airdate asOf)
  let isEnded := strLower (jsOrStr shw.status "") == "ended"
  let allReleasedWatched := hasReleased && releasedUnwatched.length == 0
  let allEpisodesWatched :=
    decide (0 < episodes.length) && episodes.all (fun e => e.watched)
  let state :=
    if shw.profileStatus == some "stopped" then "stopped"
    else if hasPartial then "watching"
    else if started && decide (0 < releasedUnwatched.length) then "watch-next"
    else if !started && hasReleased then "queued"
    else if started && allReleasedWatched && !isEnded then "up-to-date"
    else if isEnded && allEpisodesWatched then "completed"
    else if !hasReleased then "queued"
    else "up-to-date"
  let nextUnwatched := firstMinByKey cliEpisodeSortKey releasedUnwatched
  let nextFuture := firstMinByKey cliEpisodeSortKey
    (episodes.filter (fun e => strTruthy e.airdate && !isReleased e.airdate asOf))
  { state := state
    stats :=
      { totalEpisodes := episodes.length
        watchedEpisodes := watchedCount
        releasedEpisodes := releasedEpisodes.length
        releasedUnwatched := releasedUnwatched.length
        hasFuture := hasFuture }
    nextEpisode := nextUnwatched.orElse (fun _ => nextFuture) }

/-- The representation map between the two runtimes: a server episode row
(with its LEFT-JOINed `watched_at`) viewed as the client's snapshot, the
watch mark collapsing to the boolean the client keeps. -/
def toCliEpisode (e : SrvEpisode) : CliEpisode :=
  ⟨e.id, e.season, e.airdate, strTruthy e.watched_at⟩

/-- The representation map on the show fields. -/
def toCliShow (s : SrvShow) : CliShow := ⟨s.status, s.profile_status⟩

/-- A server listing re-expressed in the client's representation: the watch
mark of the `nextEpisode` collapses to the boolean flag. -/
def toCliListing (r : SrvListing) : CliListing :=
  ⟨r.state, r.stats, r.nextEpisode.map toCliEpisode⟩

/-- The six states the derivation may produce. -/
def sixStates : List String :=
  ["queued", "watch-next", "watching", "up-to-date", "completed", "stopped"]
/-! ## Relational state (`server/db.js` schema, the columns the core reads) -/

/-- A `shows` row (the columns the modelled operations read). -/
structure ShowRow where
  id : Nat
  tvmaze_id : Nat
  name : String
  status : Option String
deriving DecidableEq

/-- An `episodes` row (the columns the modelled operations read). -/
structure EpisodeRow where
  id : Nat
  show_id : Nat
  tvmaze_id : Nat
  season : Int
  airdate : Option String
deriving DecidableEq

/-- A `profile_shows` link row. -/
structure ProfileShowRow where
  profile_id : Nat
  show_id : Nat
  created_at : String
  status : Option String
deriving DecidableEq

/-- A `profile_episodes` watch-mark row.  The column is nullable TEXT but
every code path writes a timestamp string, so the model stores `String`. -/
structure ProfileEpisodeRow where
  profile_id : Nat
  episode_id : Nat
  watched_at : String
deriving DecidableEq

/-- The database state the core operates on. -/
structure Db where
  shows : List ShowRow
  episodes : List EpisodeRow
  profileShows : List ProfileShowRow
  profileEpisodes : List ProfileEpisodeRow
deriving DecidableEq

/-- The `(profile_id, episode_id)` primary key of a watch mark. -/
def markKey (m : ProfileEpisodeRow) : Nat × Nat := (m.profile_id, m.episode_id)

/-- `INSERT INTO profile_episodes ... ON CONFLICT(profile_id, episode_id)
DO UPDATE SET watched_at = excluded.watched_at`: refresh the timestamp of
every row with the key if one exists, else append the row. -/
def upsertMark (marks : List ProfileEpisodeRow) (p e : Nat) (now : String) :
    List ProfileEpisodeRow :=
  if marks.any (fun m => m.profile_id == p && m.episode_id == e) then
    marks.map (fun m =>
      if m.profile_id == p && m.episode_id == e then ⟨m.profile_id, m.episode_id, now⟩ else m)
  else
    marks ++ [⟨p, e, now⟩]

/-- `DELETE FROM profile_episodes WHERE profile_id = ? AND episode_id = ?`. -/
def deleteMark (marks : List ProfileEpisodeRow) (p e : Nat) : List ProfileEpisodeRow :=
  marks.filter (fun m => !(m.profile_id == p && m.episode_id == e))

/-- The watch mark a `(profile, episode)` key currently carries. -/
def getMark (marks : List ProfileEpisodeRow) (p e : Nat) : Option String :=
  (marks.find? (fun m => m.profile_id == p && m.episode_id == e)).map
    (fun m => m.watched_at)

/-- The `SELECT e.id FROM episodes e JOIN profile_shows ps ...` guard of the
episode-toggle endpoint: the episode exists and its show is linked. -/
def episodeLinked (db : Db) (p episodeId : Nat) : Bool :=
  db.episodes.any fun e => e.id == episodeId &&
    db.profileShows.any (fun ps => ps.profile_id == p && ps.show_id == e.show_id)

/-- The `SELECT s.id FROM shows s JOIN profile_shows ps ...` guard of the
season-toggle endpoint: the show exists and is linked. -/
def showLinked (db : Db) (p showId : Nat) : Bool :=
  db.shows.any fun s => s.id == showId &&
    db.profileShows.any (fun ps => ps.profile_id == p && ps.show_id == s.id)

/-- `POST /api/episodes/:id/watch` (`server/index.js` 1025–1055): 404 when
the episode is not in one of the profile's shows; otherwise upsert a mark
with the current timestamp, or delete the mark.  Returns the HTTP status
and the new state. -/
def toggleEpisodeRoute (db : Db) (p episodeId : Nat) (watched : Bool) (now : String) :
    Nat × Db :=
  if !episodeLinked db p episodeId then (404, db)
  else if watched then
    (200, { db with profileEpisodes := upsertMark db.profileEpisodes p episodeId now })
  else
    (200, { db with profileEpisodes := deleteMark db.profileEpisodes p episodeId })

/-- The `episodes.forEach` body of the season toggle: one upsert or delete
per episode, the `i`-th iteration reading the clock as `ts i` (the source
calls `nowIso()` separately inside each iteration). -/
def applySeasonMarks (p : Nat) (watched : Bool) (ts : Nat → String) :
    Nat → List EpisodeRow → List ProfileEpisodeRow → List ProfileEpisodeRow
  | _, [], marks => marks
  | i, e :: rest, marks =>
    applySeasonMarks p watched ts (i + 1) rest
      (if watched then upsertMark marks p e.id (ts i) else deleteMark marks p e.id)

/-- `POST /api/shows/:id/seasons/:season/watch` (`server/index.js`
1057–1102): 404 when the show is not linked; otherwise, inside one
transaction, apply the toggle to every episode row of that show and
season.  The pure fold *is* the transaction: intermediate states are not
observable and the per-episode writes cannot fail. -/
def toggleSeasonRoute (db : Db) (p showId : Nat) (season : Int) (watched : Bool)
    (ts : Nat → String) : Nat × Db :=
  if !showLinked db p showId then (404, db)
  else
    let episodes := db.episodes.filter (fun e => e.show_id == showId && e.season == season)
    (200, { db with profileEpisodes := applySeasonMarks p watched ts 0 episodes db.profileEpisodes })

/-- `POST /api/shows/:id/status` (`server/index.js` 966–991): 400 unless
the value is `null` or `"stopped"`; 404 when the show is not linked; else
update the link row's `status`. -/
def statusRoute (db : Db) (p showId : Nat) (status : Option String) : Nat × Db :=
  if !(status == none || status == some "stopped") then (400, db)
  else if !(db.profileShows.any fun ps => ps.profile_id == p && ps.show_id == showId) then
    (404, db)
  else
    (200, { db with profileShows := db.profileShows.map (fun ps =>
      if ps.profile_id == p && ps.show_id == showId then
        ⟨ps.profile_id, ps.show_id, ps.created_at, status⟩
      else ps) })

/-- The status override a link currently carries (`none` = not linked,
`some st` = linked with override `st`). -/
def linkStatus (db : Db) (p showId : Nat) : Option (Option String) :=
  (db.profileShows.find? (fun ps => ps.profile_id == p && ps.show_id == showId)).map
    (fun ps => ps.status)

/-! ## Listing and categorizer (`listShowsForProfile` and `GET /api/shows`) -/

/-- One entry of `listShowsForProfile`'s result (the fields the
categorizer and the claims read). -/
structure ShowListItem where
  id : Nat
  name : String
  state : String
  stats : ShowStats
  nextEpisode : Option SrvEpisode
deriving DecidableEq

/-- The name comparator of the listing's `ORDER BY s.name ASC` (SQLite's
default BINARY collation on the UTF-8 bytes, which `strLe` matches on the
codepoint level). -/
def nameLe (a b : ShowRow) : Bool := strLe a.name b.name

/-- The episode rows of one show as the listing's LEFT JOIN delivers them:
every episode of the show, each with the profile's `watched_at` when a
mark row exists (the join is keyed by the `(profile_id, episode_id)`
primary key). -/
def srvEpisodesFor (db : Db) (p sid : Nat) : List SrvEpisode :=
  (db.episodes.filter (fun e => e.show_id == sid)).map (fun e =>
    ⟨e.id, e.season, e.airdate,
     (db.profileEpisodes.find? (fun m => m.profile_id == p && m.episode_id == e.id)).map
       (fun m => m.watched_at)⟩)

/-- `listShowsForProfile` (`server/index.js` 513–583): the profile's
linked shows ordered by name ascending (the SQL `ORDER BY s.name ASC`),
each mapped through the derivation to a listing entry.  The link's
`status` is joined in as the show's `profile_status`. -/
def listShowsForProfile (db : Db) (p : Nat) (asOf : String) : List ShowListItem :=
  let linked := db.shows.filter (fun s =>
    db.profileShows.any (fun ps => ps.profile_id == p && ps.show_id == s.id))
  let sorted := linked.mergeSort nameLe
  sorted.map (fun s =>
    let pstat := (db.profileShows.find? (fun ps =>
      ps.profile_id == p && ps.show_id == s.id)).bind (fun ps => ps.status)
    let r := serverShowListing ⟨s.status, pstat⟩ (srvEpisodesFor db p s.id) asOf
    ⟨s.id, s.name, r.state, r.stats, r.nextEpisode⟩)

/-- One bucket of the categorized listing. -/
structure Category where
  id : String
  label : String
  shows : List ShowListItem
deriving DecidableEq

/-- The bucket id the `GET /api/shows` push-chain assigns to a state
(`completed` is the final `else`). -/
def bucketIdOf (state : String) : String :=
  if state == "stopped" then "stopped"
  else if state == "watching" then "watching"
  else if state == "watch-next" then "watch-next"
  else if state == "queued" then "queued"
  else if state == "up-to-date" then "up-to-date"
  else "completed"

/-- `GET /api/shows` (`server/index.js` 848–879): the six fixed buckets in
order, each holding the listing's entries whose state the push-chain sends
there, in listing order. -/
def showsRoute (db : Db) (p : Nat) (asOf : String) : List Category :=
  let items := listShowsForProfile db p asOf
  [⟨"watch-next", "Watch Next", items.filter (fun i => bucketIdOf i.state == "watch-next")⟩,
   ⟨"watching", "Watching", items.filter (fun i => bucketIdOf i.state == "watching")⟩,
   ⟨"queued", "Not Started", items.filter (fun i => bucketIdOf i.state == "queued")⟩,
   ⟨"up-to-date", "Up To Date", items.filter (fun i => bucketIdOf i.state == "up-to-date")⟩,
   ⟨"completed", "Finished", items.filter (fun i => bucketIdOf i.state == "completed")⟩,
   ⟨"stopped", "Stopped Watching", items.filter (fun i => bucketIdOf i.state == "stopped")⟩]

/-! ## Catalog, export and import (`buildProfileExport`, `upsertShowWithEpisodes`, `POST /api/import`) -/

/-- A catalog (TVmaze) episode record, the fields the upsert writes into
the columns this model tracks. -/
structure CatalogEpisode where
  tvmaze_id : Nat
  season : Int
  airdate : Option String
deriving DecidableEq

/-- A catalog (TVmaze) show record. -/
structure CatalogShow where
  tvmaze_id : Nat
  name : String
  status : Option String
deriving DecidableEq

/-- One catalog entry: a show and its episode list, as `fetchShow` /
`fetchEpisodes` deliver them. -/
structure CatalogEntry where
  cshow : CatalogShow
  episodes : List CatalogEpisode
deriving DecidableEq

/-- `Math.max`-free AUTOINCREMENT model: a row id strictly greater than
every episode id in use. -/
def freshEpisodeId (db : Db) : Nat := (db.episodes.map (fun e => e.id)).foldl max 0 + 1

/-- A show id strictly greater than every show id in use. -/
def freshShowId (db : Db) : Nat := (db.shows.map (fun s => s.id)).foldl max 0 + 1

/-- One iteration of the episode loop of `upsertShowWithEpisodes`:
update-in-place keyed by `tvmaze_id` when the row exists, else insert a
fresh row. -/
def upsertEpisodeRow (db : Db) (showId : Nat) (ce : CatalogEpisode) : Db :=
  if db.episodes.any (fun e => e.tvmaze_id == ce.tvmaze_id) then
    { db with episodes := db.episodes.map (fun e =>
      if e.tvmaze_id == ce.tvmaze_id then
        ⟨e.id, showId, e.tvmaze_id, ce.season, ce.airdate⟩ else e) }
  else
    { db with episodes := db.episodes ++
      [⟨freshEpisodeId db, showId, ce.tvmaze_id, ce.season, ce.airdate⟩] }

/-- `upsertShowWithEpisodes` (`server/index.js` 380–511): fetch the show
and its episodes from the catalog (`none` models the fetch throwing),
insert-or-update the show row keyed by `tvmaze_id`, then insert-or-update
every episode row keyed by `tvmaze_id`, all in one transaction. -/
def upsertShowWithEpisodes (db : Db) (catalog : List CatalogEntry) (tvId : Nat) :
    Option (Nat × Db) :=
  match catalog.find? (fun c => c.cshow.tvmaze_id == tvId) with
  | none => none
  | some entry =>
    let showStep : Nat × Db :=
      match db.shows.find? (fun s => s.tvmaze_id == entry.cshow.tvmaze_id) with
      | some srow =>
        (srow.id, { db with shows := db.shows.map (fun s =>
          if s.tvmaze_id == entry.cshow.tvmaze_id then
            ⟨s.id, s.tvmaze_id, entry.cshow.name, entry.cshow.status⟩ else s) })
      | none =>
        (freshShowId db, { db with shows := db.shows ++
          [⟨freshShowId db, entry.cshow.tvmaze_id, entry.cshow.name, entry.cshow.status⟩] })
    some (showStep.1,
      entry.episodes.foldl (fun acc ce => upsertEpisodeRow acc showStep.1 ce) showStep.2)

/-- `INSERT OR IGNORE INTO profile_shows`. -/
def insertOrIgnoreLink (db : Db) (p sid : Nat) (createdAt : String) : Db :=
  if db.profileShows.any (fun ps => ps.profile_id == p && ps.show_id == sid) then db
  else { db with profileShows := db.profileShows ++ [⟨p, sid, createdAt, none⟩] }

/-- One watched episode of the export document. -/
structure ExportEpisodeEntry where
  tvmazeEpisodeId : Nat
  watchedAt : String
deriving DecidableEq

/-- One show of the export document. -/
structure ExportShowEntry where
  tvmazeId : Nat
  name : String
  addedAt : String
  watchedEpisodes : List ExportEpisodeEntry
deriving DecidableEq

/-- The export document (`version` and `exportedAt` omitted — constants
irrelevant to the round-trip claim). -/
structure ExportDoc where
  shows : List ExportShowEntry
deriving DecidableEq

/-- `buildProfileExport` (`server/index.js` 133–173): the profile's
non-stopped linked shows, each with the profile's watch marks whose
episode belongs to it (the `Map` grouping keyed by `show_id`). -/
def buildProfileExport (db : Db) (p : Nat) : ExportDoc :=
  let episodePairs := (db.profileEpisodes.filter (fun m => m.profile_id == p)).flatMap
    (fun m => (db.episodes.filter (fun e => e.id == m.episode_id)).map
      (fun e => (e.show_id, ExportEpisodeEntry.mk e.tvmaze_id m.watched_at)))
  let linkRows := (db.profileShows.filter (fun ps =>
      ps.profile_id == p && !(ps.status == some "stopped"))).flatMap
    (fun ps => (db.shows.filter (fun s => s.id == ps.show_id)).map (fun s => (s, ps)))
  ⟨linkRows.map (fun sp =>
    ⟨sp.1.tvmaze_id, sp.1.name, sp.2.created_at,
     (episodePairs.filter (fun pr => pr.1 == sp.1.id)).map (fun pr => pr.2)⟩)⟩

/-- One watched episode of an import request body (`watchedAt` optional). -/
structure ImportEpisodeEntry where
  tvmazeEpisodeId : Nat
  watchedAt : Option String
deriving DecidableEq

/-- One show of an import request body.  A missing or zero `tvmazeId` is
falsy (the loop skips it); `watchedEpisodes` is `none` when the field is
not an array. -/
structure ImportShowEntry where
  tvmazeId : Nat
  addedAt : Option String
  watchedEpisodes : Option (List ImportEpisodeEntry)
deriving DecidableEq

/-- An export document serialized and re-read as an import body. -/
def exportToImport (doc : ExportDoc) : List ImportShowEntry :=
  doc.shows.map (fun se => ⟨se.tvmazeId, some se.addedAt,
    some (se.watchedEpisodes.map (fun we => ⟨we.tvmazeEpisodeId, some we.watchedAt⟩))⟩)

/-- The `watchedEpisodes.forEach` of the import loop: skip falsy episode
ids, resolve the catalog id to a local row, upsert the profile's mark
with `watchedAt || nowIso()`.  The clock reads of one import call are
modelled by the single value `now`. -/
def applyImportMarks (p : Nat) (now : String) :
    List ImportEpisodeEntry → Db → Db
  | [], db => db
  | we :: rest, db =>
    applyImportMarks p now rest
      (if we.tvmazeEpisodeId == 0 then db
       else match db.episodes.find? (fun e => e.tvmaze_id == we.tvmazeEpisodeId) with
         | none => db
         | some row =>
           let marks := upsertMark db.profileEpisodes p row.id (jsOrStr we.watchedAt now)
           { db with profileEpisodes := marks })

/-- One import-loop iteration for one show entry: upsert the show and its
episodes from the catalog, insert-or-ignore the link with
`addedAt || nowIso()`, then apply the watched-episode marks.  `none`
models `upsertShowWithEpisodes` throwing. -/
def importShowEntry (catalog : List CatalogEntry) (p : Nat) (now : String) (db : Db)
    (entry : ImportShowEntry) : Option Db :=
  match upsertShowWithEpisodes db catalog entry.tvmazeId with
  | none => none
  | some r =>
    let db2 := insertOrIgnoreLink r.2 p r.1 (jsOrStr entry.addedAt now)
    some (match entry.watchedEpisodes with
      | none => db2
      | some weps => applyImportMarks p now weps db2)

/-- The import loop of `POST /api/import` (`server/index.js` 1186–1229):
entries with a falsy `tvmazeId` are skipped; a throwing upsert aborts with
a 500, keeping the work committed so far; otherwise 200. -/
def importShows (catalog : List CatalogEntry) (p : Nat) (now : String) :
    List ImportShowEntry → Db → Nat × Db
  | [], db => (200, db)
  | entry :: rest, db =>
    if entry.tvmazeId == 0 then importShows catalog p now rest db
    else match importShowEntry catalog p now db entry with
      | none => (500, db)
      | some db2 => importShows catalog p now rest db2

/-- The set of `(catalog episode id, watchedAt)` pairs a profile's watch
marks denote. -/
def profilePairs (db : Db) (p : Nat) : List (Nat × String) :=
  (db.profileEpisodes.filter (fun m => m.profile_id == p)).flatMap
    (fun m => (db.episodes.filter (fun e => e.id == m.episode_id)).map
      (fun e => (e.tvmaze_id, m.watched_at)))

/-- The `(catalog episode id, watchedAt)` pairs an export document lists. -/
def docPairs (doc : ExportDoc) : List (Nat × String) :=
  doc.shows.flatMap (fun se => se.watchedEpisodes.map
    (fun we => (we.tvmazeEpisodeId, we.watchedAt)))

/-- Every episode row of `a` survives into `b` with its id and catalog id
intact (catalog upserts update in place and never delete). -/
def EpisodesPreserved (a b : Db) : Prop :=
  ∀ e ∈ a.episodes, ∃ e2 ∈ b.episodes, e2.id = e.id ∧ e2.tvmaze_id = e.tvmaze_id

/-- The `episodes` table's two key columns are duplicate-free (`id` is the
primary key, `tvmaze_id` is declared UNIQUE). -/
def EpisodeTablesWf (d : Db) : Prop :=
  (d.episodes.map (fun e => e.id)).Nodup ∧ (d.episodes.map (fun e => e.tvmaze_id)).Nodup

-- END-OF-DEFINITIONS marker (all theorems below)
end Episodely


namespace Episodely

/-! ### Transport lemmas between the two representations -/

theorem filter_map_toCli (p : CliEpisode → Bool) (l : List SrvEpisode) :
    (l.map toCliEpisode).filter p =
      (l.filter (fun e => p (toCliEpisode e))).map toCliEpisode := by
  induction l with
  | nil => rfl
  | cons a t ih =>
    simp only [List.map_cons, List.filter_cons]
    cases p (toCliEpisode a) <;> simp [ih]

theorem firstMinByKey_map_toCli (l : List SrvEpisode) :
    firstMinByKey cliEpisodeSortKey (l.map toCliEpisode) =
      (firstMinByKey episodeSortKey l).map toCliEpisode := by
  induction l with
  | nil => rfl
  | cons a t ih =>
    simp only [List.map_cons, firstMinByKey, ih]
    cases h : firstMinByKey episodeSortKey t with
    | none => rfl
    | some y =>
      have hk : cliEpisodeSortKey (toCliEpisode a) = episodeSortKey a := rfl
      have hk' : cliEpisodeSortKey (toCliEpisode y) = episodeSortKey y := rfl
      simp only [Option.map_some', hk, hk']
      by_cases hc : strLe (episodeSortKey a) (episodeSortKey y) = true
      · simp [hc]
      · simp [hc]

theorem seasons_map_toCli (l : List SrvEpisode) :
    (l.map toCliEpisode).map (fun e => e.season) = l.map (fun e => e.season) := by
  induction l with
  | nil => rfl
  | cons a t ih =>
    simp only [List.map_cons, ih]
    rfl

theorem list_any_congr {p q : SrvEpisode → Bool} (h : ∀ a, p a = q a) (l : List SrvEpisode) :
    l.any p = l.any q := by
  induction l with
  | nil => rfl
  | cons a t ih => simp only [List.any_cons, h, ih]

theorem int_any_congr {p q : Int → Bool} (h : ∀ a, p a = q a) (l : List Int) :
    l.any p = l.any q := by
  induction l with
  | nil => rfl
  | cons a t ih => simp only [List.any_cons, h, ih]

theorem cliHasPartiallyWatchedSeason_map (l : List SrvEpisode) (asOf : String) :
    cliHasPartiallyWatchedSeason (l.map toCliEpisode) asOf =
      hasPartiallyWatchedSeason l asOf := by
  unfold cliHasPartiallyWatchedSeason hasPartiallyWatchedSeason
  rw [seasons_map_toCli]
  apply int_any_congr
  intro s
  simp only [filter_map_toCli, List.length_map]
  rfl

end Episodely

namespace Episodely

theorem map_orElse_toCli (a b : Option SrvEpisode) :
    (a.orElse (fun _ => b)).map toCliEpisode =
      (a.map toCliEpisode).orElse (fun _ => b.map toCliEpisode) := by
  cases a <;> rfl

theorem any_map_toCli (p : CliEpisode → Bool) (l : List SrvEpisode) :
    (l.map toCliEpisode).any p = l.any (fun e => p (toCliEpisode e)) := by
  induction l with
  | nil => rfl
  | cons a t ih => simp only [List.map_cons, List.any_cons, ih]

theorem all_map_toCli (p : CliEpisode → Bool) (l : List SrvEpisode) :
    (l.map toCliEpisode).all p = l.all (fun e => p (toCliEpisode e)) := by
  induction l with
  | nil => rfl
  | cons a t ih => simp only [List.map_cons, List.all_cons, ih]

/-- C1: the server's derivation (`computeShowState` plus the next-episode
selection of `listShowsForProfile`) and the client's predictive copy
(`computeShowStats`) are semantically identical: on the same show, the
same episode list and the same as-of date they produce the same state,
the same next episode and the same aggregate stats, up to the
representation of a watch mark (`watched_at` presence on the server,
the `watched` boolean on the client, related by `toCliEpisode`). -/
theorem client_mirrors_server (shw : SrvShow) (eps : List SrvEpisode) (asOf : String) :
    computeShowStats (toCliShow shw) (eps.map toCliEpisode) asOf =
      toCliListing (serverShowListing shw eps asOf) := by
  unfold computeShowStats serverShowListing computeShowState toCliListing
  simp only [cliHasPartiallyWatchedSeason_map, filter_map_toCli, firstMinByKey_map_toCli,
    List.length_map, any_map_toCli, all_map_toCli, map_orElse_toCli]
  rfl

theorem srv_state_mem (shw : SrvShow) (eps : List SrvEpisode) (asOf : String) :
    (computeShowState shw eps asOf).state ∈ sixStates := by
  simp only [computeShowState, sixStates]
  split_ifs <;> decide

theorem cli_state_mem (cshw : CliShow) (ceps : List CliEpisode) (asOf : String) :
    (computeShowStats cshw ceps asOf).state ∈ sixStates := by
  simp only [computeShowStats, sixStates]
  split_ifs <;> decide

/-- C7: the derivation function is total — it is a Lean function, defined
on every show, episode list (empty lists, missing airdates and
unreleased-but-watched episodes included), override value and as-of
date — and both the server copy and the client copy always return one of
the six enumerated states. -/
theorem state_totality (shw : SrvShow) (eps : List SrvEpisode) (cshw : CliShow)
    (ceps : List CliEpisode) (asOf : String) :
    (computeShowState shw eps asOf).state ∈ sixStates ∧
      (computeShowStats cshw ceps asOf).state ∈ sixStates :=
  ⟨srv_state_mem shw eps asOf, cli_state_mem cshw ceps asOf⟩

/-- C2: precedence of rule 2 over rule 3 — whenever the stop override is
absent, `hasPartiallyWatchedSeason` holds, and `started` with a non-empty
`releasedUnwatched` would independently select `watch-next`, the derived
state is `watching`. -/
theorem rule_two_beats_rule_three (shw : SrvShow) (eps : List SrvEpisode) (asOf : String)
    (hstop : shw.profile_status ≠ some "stopped")
    (hpart : hasPartiallyWatchedSeason eps asOf = true)
    (_hstarted : 0 < (eps.filter (fun e => strTruthy e.watched_at)).length)
    (_hru : 0 < ((eps.filter (fun e => isReleased e.airdate asOf)).filter
      (fun e => !strTruthy e.watched_at)).length) :
    (computeShowState shw eps asOf).state = "watching" := by
  have hb : (shw.profile_status == some "stopped") = false := by
    simpa using hstop
  unfold computeShowState
  simp [hb, hpart]

/-- Witness for C2 at the spec's Scenario E: season 1 with two released
episodes, exactly one watched. -/
theorem rule_two_beats_rule_three_witness :
    (computeShowState ⟨some "Running", none⟩
      [⟨1, 1, some "2024-01-01", some "2024-02-01T00:00:00Z"⟩,
       ⟨2, 1, some "2024-01-08", none⟩] "2024-04-10").state = "watching" :=
  rule_two_beats_rule_three _ _ _ (by decide) (by decide) (by decide) (by decide)

end Episodely

namespace Episodely

/-! ### Order facts about the JavaScript string comparison -/

theorem charListLe_refl : ∀ (a : List Char), charListLe a a = true := by
  intro a
  induction a with
  | nil => rfl
  | cons x xs ih => simp [charListLe, ih]

theorem charListLe_trans :
    ∀ (a b c : List Char), charListLe a b = true → charListLe b c = true →
      charListLe a c = true := by
  intro a
  induction a with
  | nil => intro b c _ _; rfl
  | cons x xs ih =>
    intro b c h1 h2
    cases b with
    | nil => simp [charListLe] at h1
    | cons y ys =>
      cases c with
      | nil => simp [charListLe] at h2
      | cons z zs =>
        simp only [charListLe] at h1 h2 ⊢
        by_cases hxy : x = y
        · subst hxy
          simp only [if_pos rfl] at h1
          by_cases hxz : x = z
          · subst hxz
            simp only [if_pos rfl] at h2 ⊢
            exact ih ys zs h1 h2
          · simp only [if_neg hxz] at h2 ⊢
            exact h2
        · simp only [if_neg hxy] at h1
          by_cases hyz : y = z
          · subst hyz
            simp only [if_neg hxy]
            exact h1
          · simp only [if_neg hyz] at h2
            by_cases hxz : x = z
            · subst hxz
              exact absurd (lt_trans (of_decide_eq_true h1) (of_decide_eq_true h2))
                (lt_irrefl x)
            · simp only [if_neg hxz]
              exact decide_eq_true (lt_trans (of_decide_eq_true h1) (of_decide_eq_true h2))

theorem charListLe_total (a b : List Char) :
    charListLe a b = true ∨ charListLe b a = true := by
  induction a generalizing b with
  | nil => left; rfl
  | cons x xs ih =>
    cases b with
    | nil => right; rfl
    | cons y ys =>
      simp only [charListLe]
      by_cases hxy : x = y
      · subst hxy
        simp only [if_pos rfl]
        exact ih ys
      · have hyx : ¬ y = x := fun h => hxy h.symm
        simp only [if_neg hxy, if_neg hyx]
        rcases lt_trichotomy x y with h | h | h
        · left; exact decide_eq_true h
        · exact absurd h hxy
        · right; exact decide_eq_true h

theorem strLe_refl (a : String) : strLe a a = true := charListLe_refl a.data

theorem strLe_trans {a b c : String} (h1 : strLe a b = true) (h2 : strLe b c = true) :
    strLe a c = true := charListLe_trans a.data b.data c.data h1 h2

theorem strLe_of_not_strLe {a b : String} (h : ¬ strLe a b = true) : strLe b a = true :=
  (charListLe_total a.data b.data).resolve_left h

/-! ### `firstMinByKey` picks a minimal member -/

theorem firstMinByKey_eq_none {α : Type} (key : α → String) :
    ∀ l : List α, firstMinByKey key l = none → l = [] := by
  intro l h
  cases l with
  | nil => rfl
  | cons a t =>
    exfalso
    simp only [firstMinByKey] at h
    split at h
    · exact Option.noConfusion h
    · split at h <;> exact Option.noConfusion h

theorem firstMinByKey_mem {α : Type} (key : α → String) :
    ∀ (l : List α) (e : α), firstMinByKey key l = some e → e ∈ l := by
  intro l
  induction l with
  | nil => intro e h; cases h
  | cons a t ih =>
    intro e h
    simp only [firstMinByKey] at h
    split at h
    · injection h with h
      subst h
      exact List.mem_cons_self _ _
    · rename_i y hm
      by_cases hc : strLe (key a) (key y) = true
      · rw [if_pos hc] at h
        injection h with h
        subst h
        exact List.mem_cons_self _ _
      · rw [if_neg hc] at h
        injection h with h
        subst h
        exact List.mem_cons_of_mem _ (ih _ hm)

theorem firstMinByKey_min {α : Type} (key : α → String) :
    ∀ (l : List α) (e : α), firstMinByKey key l = some e →
      ∀ x ∈ l, strLe (key e) (key x) = true := by
  intro l
  induction l with
  | nil => intro e h; cases h
  | cons a t ih =>
    intro e h x hx
    simp only [firstMinByKey] at h
    split at h
    · rename_i hm
      injection h with h
      subst h
      have ht : t = [] := firstMinByKey_eq_none key t hm
      subst ht
      rcases List.mem_singleton.mp hx with rfl
      exact strLe_refl _
    · rename_i y hm
      by_cases hc : strLe (key a) (key y) = true
      · rw [if_pos hc] at h
        injection h with h
        subst h
        rcases List.mem_cons.mp hx with rfl | hx'
        · exact strLe_refl _
        · exact strLe_trans hc (ih y hm x hx')
      · rw [if_neg hc] at h
        injection h with h
        subst h
        rcases List.mem_cons.mp hx with rfl | hx'
        · exact strLe_of_not_strLe hc
        · exact ih y hm x hx'

end Episodely

namespace Episodely

/-- C3 counterexample: for a show whose only episodes are one released
watched episode and one *watched* future episode (watch marks on
unreleased episodes are reachable, e.g. through a whole-season toggle),
`releasedUnwatched` is empty and there is no unwatched future episode, so
the claim says `nextEpisode` is absent — but the code's future fallback
does not filter by watched, and `nextEpisode` is the watched future
episode. -/
theorem nextEpisode_claim_counterexample :
    (((([⟨1, 1, some "2024-01-01", some "2024-02-01T00:00:00Z"⟩,
         ⟨9, 2, some "2099-01-01", some "2024-02-15T00:00:00Z"⟩] : List SrvEpisode).filter
          (fun e => isReleased e.airdate "2024-04-10")).filter
            (fun e => !strTruthy e.watched_at)) = [] ∧
      ([⟨1, 1, some "2024-01-01", some "2024-02-01T00:00:00Z"⟩,
        ⟨9, 2, some "2099-01-01", some "2024-02-15T00:00:00Z"⟩] : List SrvEpisode).filter
          (fun e => strTruthy e.airdate && !isReleased e.airdate "2024-04-10"
            && !strTruthy e.watched_at) = []) ∧
      (serverShowListing ⟨some "Ended", none⟩
        [⟨1, 1, some "2024-01-01", some "2024-02-01T00:00:00Z"⟩,
         ⟨9, 2, some "2099-01-01", some "2024-02-15T00:00:00Z"⟩] "2024-04-10").nextEpisode
        ≠ none := by
  decide

/-- C3 (amended): `nextEpisode` is the earliest-airdate member of
`releasedUnwatched` (a missing airdate keyed as `''`, so sorting first);
if `releasedUnwatched` is empty it is the earliest-airdate member of the
future episodes with a present airdate — watched or not — and if there is
no such episode it is absent. -/
theorem nextEpisode_characterization (shw : SrvShow) (eps : List SrvEpisode) (asOf : String) :
    let ru := (eps.filter (fun e => isReleased e.airdate asOf)).filter
      (fun e => !strTruthy e.watched_at)
    let fut := eps.filter (fun e => strTruthy e.airdate && !isReleased e.airdate asOf)
    let next := (serverShowListing shw eps asOf).nextEpisode
    (ru ≠ [] → ∃ e, next = some e ∧ e ∈ ru ∧
      ∀ x ∈ ru, strLe (episodeSortKey e) (episodeSortKey x) = true) ∧
    (ru = [] → fut ≠ [] → ∃ e, next = some e ∧ e ∈ fut ∧
      ∀ x ∈ fut, strLe (episodeSortKey e) (episodeSortKey x) = true) ∧
    (ru = [] → fut = [] → next = none) := by
  intro ru fut next
  have hnext : next = (firstMinByKey episodeSortKey ru).orElse
      (fun _ => firstMinByKey episodeSortKey fut) := rfl
  cases hru : firstMinByKey episodeSortKey ru with
  | some e =>
    refine ⟨fun _ => ⟨e, ?_, firstMinByKey_mem _ _ _ hru, firstMinByKey_min _ _ _ hru⟩,
      fun hempty => ?_, fun hempty => ?_⟩
    · rw [hnext, hru]; rfl
    · rw [hempty] at hru; cases hru
    · rw [hempty] at hru; cases hru
  | none =>
    have hruNil : ru = [] := firstMinByKey_eq_none _ _ hru
    refine ⟨fun h => absurd hruNil h, ?_, ?_⟩
    · intro _ hfutNe
      cases hfut : firstMinByKey episodeSortKey fut with
      | some e =>
        exact ⟨e, by rw [hnext, hru, hfut]; rfl,
          firstMinByKey_mem _ _ _ hfut, firstMinByKey_min _ _ _ hfut⟩
      | none =>
        exact absurd (firstMinByKey_eq_none _ _ hfut) hfutNe
    · intro _ hfutNil
      rw [hnext, hru, hfutNil]
      rfl

/-- Witness for the amended C3 at the spec's Scenario B: one watched and
one unwatched released episode — `nextEpisode` is the minimal-airdate
released-unwatched episode. -/
theorem nextEpisode_characterization_witness :
    let eps : List SrvEpisode :=
      [⟨1, 1, some "2024-01-01", some "2024-02-01T00:00:00Z"⟩,
       ⟨2, 1, some "2024-01-08", none⟩]
    let ru := (eps.filter (fun e => isReleased e.airdate "2024-04-10")).filter
      (fun e => !strTruthy e.watched_at)
    ∃ e, (serverShowListing ⟨some "Running", none⟩ eps "2024-04-10").nextEpisode = some e ∧
      e ∈ ru ∧ ∀ x ∈ ru, strLe (episodeSortKey e) (episodeSortKey x) = true :=
  (nextEpisode_characterization ⟨some "Running", none⟩
    [⟨1, 1, some "2024-01-01", some "2024-02-01T00:00:00Z"⟩,
     ⟨2, 1, some "2024-01-08", none⟩] "2024-04-10").1 (by decide)

end Episodely

namespace Episodely

/-- C10: toggling a season that has no episodes (a season number the show
does not have at all included) succeeds with `{ok:true}` — the link guard
passes, the episode query is empty, the transaction body runs zero
iterations — and the whole state, watch marks included, is unchanged. -/
theorem toggleSeason_empty_season_ok (db : Db) (p sid : Nat) (season : Int)
    (watched : Bool) (ts : Nat → String)
    (hlink : showLinked db p sid = true)
    (hempty : db.episodes.filter (fun e => e.show_id == sid && e.season == season) = []) :
    toggleSeasonRoute db p sid season watched ts = (200, db) := by
  unfold toggleSeasonRoute
  rw [hlink]
  simp only [Bool.not_true, Bool.false_eq_true, if_false, hempty, applySeasonMarks]

/-- Witness for C10: a linked show with no episodes at all. -/
theorem toggleSeason_empty_season_ok_witness :
    toggleSeasonRoute ⟨[⟨1, 100, "A", none⟩], [], [⟨1, 1, "2024-01-01T00:00:00Z", none⟩], []⟩
      1 1 1 true (fun _ => "2024-04-10T00:00:00Z") =
      (200, ⟨[⟨1, 100, "A", none⟩], [], [⟨1, 1, "2024-01-01T00:00:00Z", none⟩], []⟩) :=
  toggleSeason_empty_season_ok _ _ _ _ _ _ (by decide) (by decide)

theorem find?_cons_pos {α : Type} (p : α → Bool) (a : α) (l : List α) (h : p a = true) :
    (a :: l).find? p = some a := by
  rw [List.find?_cons, h]

theorem find?_cons_neg {α : Type} (p : α → Bool) (a : α) (l : List α) (h : p a = false) :
    (a :: l).find? p = l.find? p := by
  rw [List.find?_cons, h]

theorem linkStatus_update_other (l : List ProfileShowRow) (p sid : Nat) (st : Option String)
    (q t : Nat) (h : ¬(q = p ∧ t = sid)) :
    (l.map (fun ps => if ps.profile_id == p && ps.show_id == sid then
        (⟨ps.profile_id, ps.show_id, ps.created_at, st⟩ : ProfileShowRow) else ps)).find?
      (fun ps => ps.profile_id == q && ps.show_id == t) =
    l.find? (fun ps => ps.profile_id == q && ps.show_id == t) := by
  induction l with
  | nil => rfl
  | cons a rest ih =>
    simp only [List.map_cons]
    by_cases hu : (a.profile_id == p && a.show_id == sid) = true
    · rw [if_pos hu]
      by_cases hq : (a.profile_id == q && a.show_id == t) = true
      · exfalso
        simp only [Bool.and_eq_true, beq_iff_eq] at hu hq
        exact h ⟨hq.1.symm.trans hu.1, hq.2.symm.trans hu.2⟩
      · have hqf : (a.profile_id == q && a.show_id == t) = false := Bool.eq_false_iff.mpr hq
        simp only [List.find?_cons, hqf]
        exact ih
    · rw [if_neg hu]
      by_cases hq : (a.profile_id == q && a.show_id == t) = true
      · simp only [List.find?_cons, hq]
      · have hqf : (a.profile_id == q && a.show_id == t) = false := Bool.eq_false_iff.mpr hq
        simp only [List.find?_cons, hqf]
        exact ih

theorem linkStatus_update_self (l : List ProfileShowRow) (p sid : Nat) (st : Option String)
    (hl : l.any (fun ps => ps.profile_id == p && ps.show_id == sid) = true) :
    ((l.map (fun ps => if ps.profile_id == p && ps.show_id == sid then
        (⟨ps.profile_id, ps.show_id, ps.created_at, st⟩ : ProfileShowRow) else ps)).find?
      (fun ps => ps.profile_id == p && ps.show_id == sid)).map (fun ps => ps.status) =
      some st := by
  induction l with
  | nil => cases hl
  | cons a rest ih =>
    simp only [List.map_cons]
    by_cases hu : (a.profile_id == p && a.show_id == sid) = true
    · rw [if_pos hu]
      simp only [List.find?_cons, hu]
      rfl
    · have huf : (a.profile_id == p && a.show_id == sid) = false := Bool.eq_false_iff.mpr hu
      rw [if_neg hu]
      simp only [List.find?_cons, huf]
      simp only [List.any_cons, hu, Bool.false_or] at hl
      exact ih hl

theorem find?_isSome_of_any {α : Type} (pr : α → Bool) (l : List α)
    (h : l.any pr = true) : l.find? pr ≠ none := by
  intro hn
  rcases List.any_eq_true.mp h with ⟨x, hx, hpx⟩
  exact absurd hpx (by simpa using List.find?_eq_none.mp hn x hx)

/-- C8: `setShowStatusOverride` accepts only `null` and `"stopped"` —
anything else is a 400 that changes nothing; the watch-mark store is
unchanged in every case; and an accepted value on a linked show updates
only that link's override (all other links keep their status, shows and
episodes are untouched), while an accepted value on an unlinked show is a
404 that changes nothing. -/
theorem setShowStatusOverride_spec (db : Db) (p sid : Nat) (status : Option String) :
    (statusRoute db p sid status).2.profileEpisodes = db.profileEpisodes ∧
    (status ≠ none → status ≠ some "stopped" →
      (statusRoute db p sid status).1 = 400 ∧ (statusRoute db p sid status).2 = db) ∧
    (status = none ∨ status = some "stopped" →
      (statusRoute db p sid status).2.shows = db.shows ∧
      (statusRoute db p sid status).2.episodes = db.episodes ∧
      (∀ q t, ¬(q = p ∧ t = sid) →
        linkStatus (statusRoute db p sid status).2 q t = linkStatus db q t) ∧
      (linkStatus db p sid = none →
        (statusRoute db p sid status).1 = 404 ∧ (statusRoute db p sid status).2 = db) ∧
      (linkStatus db p sid ≠ none →
        (statusRoute db p sid status).1 = 200 ∧
          linkStatus (statusRoute db p sid status).2 p sid = some status)) := by
  by_cases hv : (status == none || status == some "stopped") = true
  · have hvOr : status = none ∨ status = some "stopped" := by
      simpa using hv
    by_cases hl : (db.profileShows.any fun ps => ps.profile_id == p && ps.show_id == sid) = true
    · have hroute : statusRoute db p sid status =
        (200, { db with profileShows := db.profileShows.map (fun ps =>
          if ps.profile_id == p && ps.show_id == sid then
            ⟨ps.profile_id, ps.show_id, ps.created_at, status⟩
          else ps) }) := by
        unfold statusRoute
        rw [hv, hl]
        rfl
      refine ⟨by rw [hroute], ?_, ?_⟩
      · intro h1 h2
        rcases hvOr with h | h
        · exact absurd h h1
        · exact absurd h h2
      · intro _
        refine ⟨by rw [hroute], by rw [hroute], ?_, ?_, ?_⟩
        · intro q t hqt
          rw [hroute]
          unfold linkStatus
          rw [linkStatus_update_other _ _ _ _ _ _ hqt]
        · intro hnone
          exfalso
          apply find?_isSome_of_any _ _ hl
          have := congrArg (fun o : Option (Option String) => o) hnone
          unfold linkStatus at hnone
          exact Option.map_eq_none'.mp hnone
        · intro _
          refine ⟨by rw [hroute], ?_⟩
          rw [hroute]
          unfold linkStatus
          exact linkStatus_update_self _ _ _ _ hl
    · have hroute : statusRoute db p sid status = (404, db) := by
        unfold statusRoute
        rw [hv]
        simp only [Bool.not_true, Bool.false_eq_true, if_false]
        rw [if_pos]
        simp [hl]
      refine ⟨by rw [hroute], ?_, ?_⟩
      · intro h1 h2
        rcases hvOr with h | h
        · exact absurd h h1
        · exact absurd h h2
      · intro _
        refine ⟨by rw [hroute], by rw [hroute], fun q t _ => by rw [hroute], ?_, ?_⟩
        · intro _
          exact ⟨by rw [hroute], by rw [hroute]⟩
        · intro hsome
          exfalso
          apply hsome
          unfold linkStatus
          rw [List.find?_eq_none.mpr]
          · rfl
          · intro x hx hpx
            exact absurd (List.any_eq_true.mpr ⟨x, hx, hpx⟩) hl
  · have hroute : statusRoute db p sid status = (400, db) := by
      unfold statusRoute
      rw [if_pos]
      simp [hv]
    have hval : status ≠ none ∧ status ≠ some "stopped" := by
      simpa using hv
    refine ⟨by rw [hroute], fun _ _ => ⟨by rw [hroute], by rw [hroute]⟩, ?_⟩
    intro habs
    rcases habs with h | h
    · exact absurd h hval.1
    · exact absurd h hval.2

/-- Witness for C8: setting `"stopped"` on a linked show succeeds and the
link carries the override afterwards. -/
theorem setShowStatusOverride_spec_witness :
    (statusRoute ⟨[⟨1, 100, "A", none⟩], [], [⟨1, 1, "t0", none⟩], []⟩ 1 1
        (some "stopped")).1 = 200 ∧
      linkStatus (statusRoute ⟨[⟨1, 100, "A", none⟩], [], [⟨1, 1, "t0", none⟩], []⟩ 1 1
        (some "stopped")).2 1 1 = some (some "stopped") :=
  ((setShowStatusOverride_spec ⟨[⟨1, 100, "A", none⟩], [], [⟨1, 1, "t0", none⟩], []⟩ 1 1
      (some "stopped")).2.2 (Or.inr rfl)).2.2.2.2 (by decide)

end Episodely

namespace Episodely

theorem update_keys_map (marks : List ProfileEpisodeRow) (p e : Nat) (now : String) :
    ((marks.map (fun m => if m.profile_id == p && m.episode_id == e then
      (⟨m.profile_id, m.episode_id, now⟩ : ProfileEpisodeRow) else m)).map markKey) =
      marks.map markKey := by
  induction marks with
  | nil => rfl
  | cons a t ih =>
    simp only [List.map_cons, ih]
    congr 1
    by_cases ha : (a.profile_id == p && a.episode_id == e) = true
    · rw [if_pos ha]
      rfl
    · rw [if_neg ha]

theorem upsertMark_keys (marks : List ProfileEpisodeRow) (p e : Nat) (now : String) :
    (upsertMark marks p e now).map markKey =
      if marks.any (fun m => m.profile_id == p && m.episode_id == e) then marks.map markKey
      else marks.map markKey ++ [(p, e)] := by
  unfold upsertMark
  by_cases h : (marks.any fun m => m.profile_id == p && m.episode_id == e) = true
  · rw [if_pos h, if_pos h, update_keys_map]
  · rw [if_neg h, if_neg h, List.map_append]
    rfl

theorem any_key_iff (marks : List ProfileEpisodeRow) (p e : Nat) :
    (marks.any fun m => m.profile_id == p && m.episode_id == e) = true ↔
      (p, e) ∈ marks.map markKey := by
  rw [List.any_eq_true]
  constructor
  · rintro ⟨m, hm, hp⟩
    simp only [Bool.and_eq_true, beq_iff_eq] at hp
    exact List.mem_map.mpr ⟨m, hm, by simp [markKey, hp.1, hp.2]⟩
  · intro hmem
    rcases List.mem_map.mp hmem with ⟨m, hm, hk⟩
    refine ⟨m, hm, ?_⟩
    simp only [markKey, Prod.mk.injEq] at hk
    simp [hk.1, hk.2]

theorem update_filter_other (marks : List ProfileEpisodeRow) (p e : Nat) (now : String) :
    ((marks.map (fun m => if m.profile_id == p && m.episode_id == e then
        (⟨m.profile_id, m.episode_id, now⟩ : ProfileEpisodeRow) else m)).filter
      (fun m => !(m.profile_id == p && m.episode_id == e))) =
      marks.filter (fun m => !(m.profile_id == p && m.episode_id == e)) := by
  induction marks with
  | nil => rfl
  | cons a t ih =>
    simp only [List.map_cons, List.filter_cons]
    by_cases ha : (a.profile_id == p && a.episode_id == e) = true
    · rw [if_pos ha]
      simp only [ha, Bool.not_true]
      rw [if_neg (by simp), if_neg (by simp)]
      exact ih
    · rw [if_neg ha]
      simp only [Bool.eq_false_iff.mpr ha, Bool.not_false]
      rw [if_pos (by simp), if_pos (by simp)]
      rw [ih]

theorem upsert_filter_other (marks : List ProfileEpisodeRow) (p e : Nat) (now : String) :
    ((upsertMark marks p e now).filter
      (fun m => !(m.profile_id == p && m.episode_id == e))) =
      marks.filter (fun m => !(m.profile_id == p && m.episode_id == e)) := by
  unfold upsertMark
  by_cases h : (marks.any fun m => m.profile_id == p && m.episode_id == e) = true
  · rw [if_pos h]
    exact update_filter_other marks p e now
  · rw [if_neg h, List.filter_append]
    simp

theorem count_key_one (x : Nat × Nat) :
    ∀ l : List (Nat × Nat), l.Nodup → x ∈ l → l.count x = 1 := by
  intro l
  induction l with
  | nil => intro _ h; cases h
  | cons a t ih =>
    intro hnd hm
    rw [List.count_cons]
    rcases List.mem_cons.mp hm with rfl | hmt
    · have hz : t.count x = 0 := List.count_eq_zero.mpr (List.nodup_cons.mp hnd).1
      simp [hz]
    · have hne : a ≠ x := by
        rintro rfl
        exact (List.nodup_cons.mp hnd).1 hmt
      have hz : ((a == x) = true) = False := by simp [hne]
      rw [ih (List.nodup_cons.mp hnd).2 hmt, if_neg (by simp [hne])]

/-- C6: `toggleEpisode` is idempotent.  Marking a linked episode watched
twice in a row leaves the watch-mark store with exactly the same key set
as marking it once — still duplicate-free, still exactly one row keyed
`(p, e)`, and every row with a different key byte-identical — and
unmarking an episode that carries no mark leaves the whole state
unchanged. -/
theorem toggleEpisode_idempotent (db : Db) (p e : Nat) (t1 t2 t3 : String)
    (hwf : (db.profileEpisodes.map markKey).Nodup)
    (hlink : episodeLinked db p e = true) :
    ((toggleEpisodeRoute (toggleEpisodeRoute db p e true t1).2 p e true t2).2.profileEpisodes.map
        markKey =
      (toggleEpisodeRoute db p e true t1).2.profileEpisodes.map markKey) ∧
    ((toggleEpisodeRoute db p e true t1).2.profileEpisodes.map markKey).Nodup ∧
    ((toggleEpisodeRoute db p e true t1).2.profileEpisodes.map markKey).count (p, e) = 1 ∧
    ((toggleEpisodeRoute (toggleEpisodeRoute db p e true t1).2 p e true t2).2.profileEpisodes.filter
        (fun m => !(m.profile_id == p && m.episode_id == e)) =
      (toggleEpisodeRoute db p e true t1).2.profileEpisodes.filter
        (fun m => !(m.profile_id == p && m.episode_id == e))) ∧
    (∀ db' : Db, (∀ m ∈ db'.profileEpisodes, ¬(m.profile_id = p ∧ m.episode_id = e)) →
      (toggleEpisodeRoute db' p e false t3).2 = db') := by
  have hroute : ∀ (d : Db) (t : String), episodeLinked d p e = true →
      (toggleEpisodeRoute d p e true t).2 =
        { d with profileEpisodes := upsertMark d.profileEpisodes p e t } := by
    intro d t hl
    unfold toggleEpisodeRoute
    rw [hl]
    rfl
  have hE1 : (toggleEpisodeRoute db p e true t1).2.profileEpisodes =
      upsertMark db.profileEpisodes p e t1 := by
    rw [hroute db t1 hlink]
  have hlink1 : episodeLinked (toggleEpisodeRoute db p e true t1).2 p e = true := by
    rw [hroute db t1 hlink]
    exact hlink
  have hE2 : (toggleEpisodeRoute (toggleEpisodeRoute db p e true t1).2 p e true t2).2.profileEpisodes =
      upsertMark (upsertMark db.profileEpisodes p e t1) p e t2 := by
    rw [hroute _ t2 hlink1, hroute db t1 hlink]
  have hmem1 : (p, e) ∈ (upsertMark db.profileEpisodes p e t1).map markKey := by
    rw [upsertMark_keys]
    by_cases h : (db.profileEpisodes.any fun m => m.profile_id == p && m.episode_id == e) = true
    · rw [if_pos h]
      exact (any_key_iff _ _ _).mp h
    · rw [if_neg h]
      exact List.mem_append_right _ (List.mem_singleton.mpr rfl)
  have hnd1 : ((upsertMark db.profileEpisodes p e t1).map markKey).Nodup := by
    rw [upsertMark_keys]
    by_cases h : (db.profileEpisodes.any fun m => m.profile_id == p && m.episode_id == e) = true
    · rw [if_pos h]
      exact hwf
    · rw [if_neg h, List.nodup_append]
      refine ⟨hwf, List.nodup_singleton _, ?_⟩
      intro x hx hx'
      rcases List.mem_singleton.mp hx' with rfl
      exact absurd ((any_key_iff _ _ _).mpr hx) h
  have hany1 : ((upsertMark db.profileEpisodes p e t1).any
      fun m => m.profile_id == p && m.episode_id == e) = true :=
    (any_key_iff _ _ _).mpr hmem1
  refine ⟨?_, ?_, ?_, ?_, ?_⟩
  · rw [hE1, hE2, upsertMark_keys, if_pos hany1]
  · rw [hE1]
    exact hnd1
  · rw [hE1]
    exact count_key_one _ _ hnd1 hmem1
  · rw [hE1, hE2]
    exact upsert_filter_other _ _ _ _
  · intro db' hnone
    have hdel : deleteMark db'.profileEpisodes p e = db'.profileEpisodes := by
      unfold deleteMark
      apply List.filter_eq_self.mpr
      intro m hm
      by_cases h1 : (m.profile_id == p && m.episode_id == e) = true
      · exfalso
        simp only [Bool.and_eq_true, beq_iff_eq] at h1
        exact hnone m hm h1
      · simp [h1]
    unfold toggleEpisodeRoute
    by_cases hl' : episodeLinked db' p e = true
    · simp only [hl', Bool.not_true, Bool.false_eq_true, if_false]
      show ({ db' with profileEpisodes := deleteMark db'.profileEpisodes p e } : Db) = db'
      rw [hdel]
    · simp [hl']

/-- Witness for C6: a fresh profile-linked episode, marked watched twice;
exactly one mark row keyed `(1, 10)` results. -/
theorem toggleEpisode_idempotent_witness :
    ((toggleEpisodeRoute ⟨[⟨1, 100, "A", none⟩], [⟨10, 1, 1000, 1, some "2024-01-01"⟩],
        [⟨1, 1, "t0", none⟩], []⟩ 1 10 true "T1").2.profileEpisodes.map markKey).count (1, 10)
      = 1 :=
  (toggleEpisode_idempotent ⟨[⟨1, 100, "A", none⟩], [⟨10, 1, 1000, 1, some "2024-01-01"⟩],
    [⟨1, 1, "t0", none⟩], []⟩ 1 10 "T1" "T2" "T3" (by decide) (by decide)).2.2.1

end Episodely

namespace Episodely

theorem find?_update_self (marks : List ProfileEpisodeRow) (p e : Nat) (now : String)
    (h : (marks.any fun m => m.profile_id == p && m.episode_id == e) = true) :
    ((marks.map (fun m => if m.profile_id == p && m.episode_id == e then
        (⟨m.profile_id, m.episode_id, now⟩ : ProfileEpisodeRow) else m)).find?
      (fun m => m.profile_id == p && m.episode_id == e)) = some ⟨p, e, now⟩ := by
  induction marks with
  | nil => cases h
  | cons a t ih =>
    simp only [List.map_cons]
    by_cases ha : (a.profile_id == p && a.episode_id == e) = true
    · rw [if_pos ha]
      simp only [List.find?_cons, ha]
      simp only [Bool.and_eq_true, beq_iff_eq] at ha
      rw [ha.1, ha.2]
    · rw [if_neg ha]
      have haf : (a.profile_id == p && a.episode_id == e) = false := Bool.eq_false_iff.mpr ha
      simp only [List.find?_cons, haf]
      simp only [List.any_cons, haf, Bool.false_or] at h
      exact ih h

theorem find?_append_self (marks : List ProfileEpisodeRow) (p e : Nat) (now : String)
    (h : (marks.any fun m => m.profile_id == p && m.episode_id == e) = false) :
    ((marks ++ [(⟨p, e, now⟩ : ProfileEpisodeRow)]).find?
      (fun m => m.profile_id == p && m.episode_id == e)) = some ⟨p, e, now⟩ := by
  induction marks with
  | nil =>
    simp [List.find?_cons]
  | cons a t ih =>
    rw [List.any_cons, Bool.or_eq_false_iff] at h
    simp only [List.cons_append, List.find?_cons, h.1]
    exact ih h.2

theorem getMark_upsert_self (marks : List ProfileEpisodeRow) (p e : Nat) (now : String) :
    getMark (upsertMark marks p e now) p e = some now := by
  unfold getMark upsertMark
  by_cases h : (marks.any fun m => m.profile_id == p && m.episode_id == e) = true
  · rw [if_pos h, find?_update_self marks p e now h]
    rfl
  · rw [if_neg h, find?_append_self marks p e now (Bool.eq_false_iff.mpr h)]
    rfl

theorem find?_update_other (marks : List ProfileEpisodeRow) (p e : Nat) (now : String)
    (q f : Nat) (h : ¬(q = p ∧ f = e)) :
    ((marks.map (fun m => if m.profile_id == p && m.episode_id == e then
        (⟨m.profile_id, m.episode_id, now⟩ : ProfileEpisodeRow) else m)).find?
      (fun m => m.profile_id == q && m.episode_id == f)) =
      marks.find? (fun m => m.profile_id == q && m.episode_id == f) := by
  induction marks with
  | nil => rfl
  | cons a t ih =>
    simp only [List.map_cons]
    by_cases hpe : (a.profile_id == p && a.episode_id == e) = true
    · rw [if_pos hpe]
      by_cases hqf : (a.profile_id == q && a.episode_id == f) = true
      · exfalso
        simp only [Bool.and_eq_true, beq_iff_eq] at hpe hqf
        exact h ⟨hqf.1.symm.trans hpe.1, hqf.2.symm.trans hpe.2⟩
      · have hqf' : (a.profile_id == q && a.episode_id == f) = false := Bool.eq_false_iff.mpr hqf
        simp only [List.find?_cons, hqf']
        exact ih
    · rw [if_neg hpe]
      by_cases hqf : (a.profile_id == q && a.episode_id == f) = true
      · simp only [List.find?_cons, hqf]
      · simp only [List.find?_cons, Bool.eq_false_iff.mpr hqf]
        exact ih

theorem find?_append_other (marks : List ProfileEpisodeRow) (p e : Nat) (now : String)
    (q f : Nat) (h : ¬(q = p ∧ f = e)) :
    ((marks ++ [(⟨p, e, now⟩ : ProfileEpisodeRow)]).find?
      (fun m => m.profile_id == q && m.episode_id == f)) =
      marks.find? (fun m => m.profile_id == q && m.episode_id == f) := by
  induction marks with
  | nil =>
    have hf : ((p == q) && (e == f)) = false := by
      rw [Bool.eq_false_iff]
      intro hx
      simp only [Bool.and_eq_true, beq_iff_eq] at hx
      exact h ⟨hx.1.symm, hx.2.symm⟩
    simp only [List.nil_append, List.find?_cons, hf]
  | cons a t ih =>
    by_cases hqf : (a.profile_id == q && a.episode_id == f) = true
    · simp only [List.cons_append, List.find?_cons, hqf]
    · simp only [List.cons_append, List.find?_cons, Bool.eq_false_iff.mpr hqf]
      exact ih

theorem getMark_upsert_other (marks : List ProfileEpisodeRow) (p e : Nat) (now : String)
    (q f : Nat) (h : ¬(q = p ∧ f = e)) :
    getMark (upsertMark marks p e now) q f = getMark marks q f := by
  unfold getMark upsertMark
  by_cases hb : (marks.any fun m => m.profile_id == p && m.episode_id == e) = true
  · rw [if_pos hb, find?_update_other marks p e now q f h]
  · rw [if_neg hb, find?_append_other marks p e now q f h]

theorem getMark_delete_self (marks : List ProfileEpisodeRow) (p e : Nat) :
    getMark (deleteMark marks p e) p e = none := by
  unfold getMark deleteMark
  rw [List.find?_eq_none.mpr]
  · rfl
  · intro x hx
    have hk := (List.mem_filter.mp hx).2
    simp only [Bool.not_eq_true'] at hk
    simp [hk]

theorem find?_delete_other (marks : List ProfileEpisodeRow) (p e q f : Nat)
    (h : ¬(q = p ∧ f = e)) :
    ((marks.filter (fun m => !(m.profile_id == p && m.episode_id == e))).find?
      (fun m => m.profile_id == q && m.episode_id == f)) =
      marks.find? (fun m => m.profile_id == q && m.episode_id == f) := by
  induction marks with
  | nil => rfl
  | cons a t ih =>
    simp only [List.filter_cons]
    by_cases hpe : (a.profile_id == p && a.episode_id == e) = true
    · have hqf : (a.profile_id == q && a.episode_id == f) = false := by
        rw [Bool.eq_false_iff]
        intro hx
        simp only [Bool.and_eq_true, beq_iff_eq] at hx hpe
        exact h ⟨hx.1.symm.trans hpe.1, hx.2.symm.trans hpe.2⟩
      simp only [hpe, Bool.not_true, Bool.false_eq_true, if_false]
      rw [ih]
      simp only [List.find?_cons, hqf]
    · simp only [Bool.eq_false_iff.mpr hpe, Bool.not_false, if_true]
      by_cases hqf : (a.profile_id == q && a.episode_id == f) = true
      · simp only [List.find?_cons, hqf]
      · simp only [List.find?_cons, Bool.eq_false_iff.mpr hqf]
        exact ih

theorem getMark_delete_other (marks : List ProfileEpisodeRow) (p e q f : Nat)
    (h : ¬(q = p ∧ f = e)) :
    getMark (deleteMark marks p e) q f = getMark marks q f := by
  unfold getMark deleteMark
  rw [find?_delete_other marks p e q f h]

end Episodely

namespace Episodely

theorem applySeasonMarks_frame (p : Nat) (watched : Bool) (ts : Nat → String) :
    ∀ (eps : List EpisodeRow) (i : Nat) (marks : List ProfileEpisodeRow) (q f : Nat),
      ¬(q = p ∧ f ∈ eps.map (fun e => e.id)) →
      getMark (applySeasonMarks p watched ts i eps marks) q f = getMark marks q f := by
  intro eps
  induction eps with
  | nil => intro i marks q f _; rfl
  | cons e rest ih =>
    intro i marks q f h
    have h1 : ¬(q = p ∧ f = e.id) := fun hx => h ⟨hx.1, by simp [hx.2]⟩
    have h2 : ¬(q = p ∧ f ∈ rest.map (fun e => e.id)) := fun hx => h ⟨hx.1, by simp [hx.2]⟩
    simp only [applySeasonMarks]
    rw [ih (i + 1) _ q f h2]
    cases watched
    · simp only [Bool.false_eq_true, if_false]
      exact getMark_delete_other marks p e.id q f h1
    · simp only [if_true]
      exact getMark_upsert_other marks p e.id (ts i) q f h1

theorem applySeasonMarks_sets (p : Nat) (ts : Nat → String) :
    ∀ (eps : List EpisodeRow) (i : Nat) (marks : List ProfileEpisodeRow) (f : Nat),
      (f ∈ eps.map (fun e => e.id) ∨ ∃ t', getMark marks p f = some t') →
      ∃ t', getMark (applySeasonMarks p true ts i eps marks) p f = some t' := by
  intro eps
  induction eps with
  | nil =>
    intro i marks f h
    rcases h with h | h
    · cases h
    · exact h
  | cons e rest ih =>
    intro i marks f h
    simp only [applySeasonMarks, if_true]
    by_cases hf : f = e.id
    · subst hf
      exact ih (i + 1) _ e.id (Or.inr ⟨ts i, getMark_upsert_self marks p e.id (ts i)⟩)
    · rcases h with h | h
      · simp only [List.map_cons, List.mem_cons] at h
        rcases h with h1 | h1
        · exact absurd h1 hf
        · exact ih (i + 1) _ f (Or.inl h1)
      · rcases h with ⟨t', ht'⟩
        refine ih (i + 1) _ f (Or.inr ⟨t', ?_⟩)
        rw [getMark_upsert_other marks p e.id (ts i) p f (fun hx => hf hx.2)]
        exact ht'

theorem applySeasonMarks_sets_const (p : Nat) (ts : Nat → String) (c : String)
    (hc : ∀ j, ts j = c) :
    ∀ (eps : List EpisodeRow) (i : Nat) (marks : List ProfileEpisodeRow) (f : Nat),
      (f ∈ eps.map (fun e => e.id) ∨ getMark marks p f = some c) →
      getMark (applySeasonMarks p true ts i eps marks) p f = some c := by
  intro eps
  induction eps with
  | nil =>
    intro i marks f h
    rcases h with h | h
    · cases h
    · exact h
  | cons e rest ih =>
    intro i marks f h
    simp only [applySeasonMarks, if_true]
    by_cases hf : f = e.id
    · subst hf
      refine ih (i + 1) _ e.id (Or.inr ?_)
      rw [getMark_upsert_self marks p e.id (ts i), hc i]
    · rcases h with h | h
      · simp only [List.map_cons, List.mem_cons] at h
        rcases h with h1 | h1
        · exact absurd h1 hf
        · exact ih (i + 1) _ f (Or.inl h1)
      · refine ih (i + 1) _ f (Or.inr ?_)
        rw [getMark_upsert_other marks p e.id (ts i) p f (fun hx => hf hx.2)]
        exact h

theorem applySeasonMarks_clears (p : Nat) (ts : Nat → String) :
    ∀ (eps : List EpisodeRow) (i : Nat) (marks : List ProfileEpisodeRow) (f : Nat),
      (f ∈ eps.map (fun e => e.id) ∨ getMark marks p f = none) →
      getMark (applySeasonMarks p false ts i eps marks) p f = none := by
  intro eps
  induction eps with
  | nil =>
    intro i marks f h
    rcases h with h | h
    · cases h
    · exact h
  | cons e rest ih =>
    intro i marks f h
    simp only [applySeasonMarks, Bool.false_eq_true, if_false]
    by_cases hf : f = e.id
    · subst hf
      exact ih (i + 1) _ e.id (Or.inr (getMark_delete_self marks p e.id))
    · rcases h with h | h
      · simp only [List.map_cons, List.mem_cons] at h
        rcases h with h1 | h1
        · exact absurd h1 hf
        · exact ih (i + 1) _ f (Or.inl h1)
      · refine ih (i + 1) _ f (Or.inr ?_)
        rw [getMark_delete_other marks p e.id p f (fun hx => hf hx.2)]
        exact h

/-- C5 (amended): the season toggle applies the episode-toggle semantics
to every episode of the season as one transaction — on success every
episode of the season reaches the target watched state, marks outside the
season (and other profiles' marks) are untouched, and a failed (404) call
changes nothing.  Each episode marked watched receives the clock reading
taken at its own write (`nowIso()` is called once per episode); in
particular, whenever the clock does not advance during the call, all
episodes marked in the call receive the same timestamp. -/
theorem toggleSeason_spec (db : Db) (p sid : Nat) (season : Int) (watched : Bool)
    (ts : Nat → String) (hlink : showLinked db p sid = true) :
    (toggleSeasonRoute db p sid season watched ts).1 = 200 ∧
    (toggleSeasonRoute db p sid season watched ts).2.shows = db.shows ∧
    (toggleSeasonRoute db p sid season watched ts).2.episodes = db.episodes ∧
    (toggleSeasonRoute db p sid season watched ts).2.profileShows = db.profileShows ∧
    (watched = true →
      ∀ e ∈ db.episodes.filter (fun e => e.show_id == sid && e.season == season),
        ∃ t', getMark (toggleSeasonRoute db p sid season watched ts).2.profileEpisodes p e.id
          = some t') ∧
    (watched = true → (∀ j, ts j = ts 0) →
      ∀ e ∈ db.episodes.filter (fun e => e.show_id == sid && e.season == season),
        getMark (toggleSeasonRoute db p sid season watched ts).2.profileEpisodes p e.id
          = some (ts 0)) ∧
    (watched = false →
      ∀ e ∈ db.episodes.filter (fun e => e.show_id == sid && e.season == season),
        getMark (toggleSeasonRoute db p sid season watched ts).2.profileEpisodes p e.id
          = none) ∧
    (∀ q f, ¬(q = p ∧ f ∈ (db.episodes.filter
        (fun e => e.show_id == sid && e.season == season)).map (fun e => e.id)) →
      getMark (toggleSeasonRoute db p sid season watched ts).2.profileEpisodes q f =
        getMark db.profileEpisodes q f) ∧
    (∀ db2 : Db, showLinked db2 p sid = false →
      toggleSeasonRoute db2 p sid season watched ts = (404, db2)) := by
  have hE : (toggleSeasonRoute db p sid season watched ts).2.profileEpisodes =
      applySeasonMarks p watched ts 0
        (db.episodes.filter (fun e => e.show_id == sid && e.season == season))
        db.profileEpisodes := by
    unfold toggleSeasonRoute
    rw [hlink]
    rfl
  have h1 : (toggleSeasonRoute db p sid season watched ts).1 = 200 := by
    unfold toggleSeasonRoute
    rw [hlink]
    rfl
  have hs : (toggleSeasonRoute db p sid season watched ts).2.shows = db.shows := by
    unfold toggleSeasonRoute
    rw [hlink]
    rfl
  have hep : (toggleSeasonRoute db p sid season watched ts).2.episodes = db.episodes := by
    unfold toggleSeasonRoute
    rw [hlink]
    rfl
  have hps : (toggleSeasonRoute db p sid season watched ts).2.profileShows =
      db.profileShows := by
    unfold toggleSeasonRoute
    rw [hlink]
    rfl
  refine ⟨h1, hs, hep, hps, ?_, ?_, ?_, ?_, ?_⟩
  · rintro rfl e he
    rw [hE]
    exact applySeasonMarks_sets p ts _ 0 _ e.id
      (Or.inl (List.mem_map.mpr ⟨e, he, rfl⟩))
  · rintro rfl hc e he
    rw [hE]
    exact applySeasonMarks_sets_const p ts (ts 0) hc _ 0 _ e.id
      (Or.inl (List.mem_map.mpr ⟨e, he, rfl⟩))
  · rintro rfl e he
    rw [hE]
    exact applySeasonMarks_clears p ts _ 0 _ e.id
      (Or.inl (List.mem_map.mpr ⟨e, he, rfl⟩))
  · intro q f hqf
    rw [hE]
    exact applySeasonMarks_frame p watched ts _ 0 _ q f hqf
  · intro db2 hnl
    unfold toggleSeasonRoute
    rw [hnl]
    rfl

/-- Witness for the amended C5: a two-episode season marked watched under
a non-advancing clock; the first episode carries the clock's reading. -/
theorem toggleSeason_spec_witness :
    getMark (toggleSeasonRoute ⟨[⟨1, 100, "A", none⟩],
        [⟨10, 1, 1000, 1, some "2024-01-01"⟩, ⟨11, 1, 1001, 1, some "2024-01-08"⟩],
        [⟨1, 1, "t0", none⟩], []⟩ 1 1 1 true
        (fun _ => "2024-04-10T00:00:00.000Z")).2.profileEpisodes 1 10 =
      some "2024-04-10T00:00:00.000Z" :=
  (toggleSeason_spec ⟨[⟨1, 100, "A", none⟩],
      [⟨10, 1, 1000, 1, some "2024-01-01"⟩, ⟨11, 1, 1001, 1, some "2024-01-08"⟩],
      [⟨1, 1, "t0", none⟩], []⟩ 1 1 1 true
      (fun _ => "2024-04-10T00:00:00.000Z") (by decide)).2.2.2.2.2.1 rfl (fun _ => rfl)
    ⟨10, 1, 1000, 1, some "2024-01-01"⟩ (by decide)

/-- C5 counterexample to the same-timestamp clause: the loop body reads
the clock once per episode, so a clock that advances between the two
writes leaves the two episodes of the season with different `watched_at`
values. -/
theorem toggleSeason_same_timestamp_counterexample :
    (toggleSeasonRoute ⟨[⟨1, 100, "A", none⟩],
        [⟨10, 1, 1000, 1, some "2024-01-01"⟩, ⟨11, 1, 1001, 1, some "2024-01-08"⟩],
        [⟨1, 1, "t0", none⟩], []⟩ 1 1 1 true
        (fun i => if i == 0 then "2024-04-10T00:00:00.000Z"
          else "2024-04-10T00:00:00.001Z")).1 = 200 ∧
    getMark (toggleSeasonRoute ⟨[⟨1, 100, "A", none⟩],
        [⟨10, 1, 1000, 1, some "2024-01-01"⟩, ⟨11, 1, 1001, 1, some "2024-01-08"⟩],
        [⟨1, 1, "t0", none⟩], []⟩ 1 1 1 true
        (fun i => if i == 0 then "2024-04-10T00:00:00.000Z"
          else "2024-04-10T00:00:00.001Z")).2.profileEpisodes 1 10 =
      some "2024-04-10T00:00:00.000Z" ∧
    getMark (toggleSeasonRoute ⟨[⟨1, 100, "A", none⟩],
        [⟨10, 1, 1000, 1, some "2024-01-01"⟩, ⟨11, 1, 1001, 1, some "2024-01-08"⟩],
        [⟨1, 1, "t0", none⟩], []⟩ 1 1 1 true
        (fun i => if i == 0 then "2024-04-10T00:00:00.000Z"
          else "2024-04-10T00:00:00.001Z")).2.profileEpisodes 1 11 =
      some "2024-04-10T00:00:00.001Z" ∧
    ("2024-04-10T00:00:00.000Z" : String) ≠ "2024-04-10T00:00:00.001Z" := by
  refine ⟨rfl, rfl, rfl, by decide⟩

end Episodely

namespace Episodely

theorem bucketIdOf_of_mem (st : String) (h : st ∈ sixStates) : bucketIdOf st = st := by
  simp only [sixStates, List.mem_cons, List.not_mem_nil, or_false] at h
  rcases h with rfl | rfl | rfl | rfl | rfl | rfl <;> decide

theorem item_state_mem (db : Db) (p : Nat) (asOf : String) :
    ∀ i ∈ listShowsForProfile db p asOf, i.state ∈ sixStates := by
  intro i hi
  unfold listShowsForProfile at hi
  rcases List.mem_map.mp hi with ⟨s, _, rfl⟩
  exact srv_state_mem _ _ _

theorem strLe_bool_total (a b : String) : (strLe a b || strLe b a) = true := by
  rcases charListLe_total a.data b.data with h | h <;> simp [strLe, h]

theorem nameLe_trans : ∀ a b c : ShowRow,
    nameLe a b = true → nameLe b c = true → nameLe a c = true :=
  fun _ _ _ hab hbc => strLe_trans hab hbc

theorem nameLe_total : ∀ a b : ShowRow, (nameLe a b || nameLe b a) = true :=
  fun a b => strLe_bool_total a.name b.name

theorem items_sorted (db : Db) (p : Nat) (asOf : String) :
    List.Pairwise (fun a b : ShowListItem => strLe a.name b.name = true)
      (listShowsForProfile db p asOf) := by
  unfold listShowsForProfile
  rw [List.pairwise_map]
  exact List.sorted_mergeSort nameLe_trans nameLe_total _

/-- C9: the categorizer returns exactly the six buckets in the fixed order
`[watch-next, watching, queued, up-to-date, completed, stopped]` (with
display labels), places every listed show into the bucket matching its
derived state, keeps the shows of each bucket sorted by name ascending,
and always emits all six buckets (empty ones included). -/
theorem categorizer_spec (db : Db) (p : Nat) (asOf : String) :
    (showsRoute db p asOf).map (fun c => c.id) =
      ["watch-next", "watching", "queued", "up-to-date", "completed", "stopped"] ∧
    (showsRoute db p asOf).length = 6 ∧
    (∀ c ∈ showsRoute db p asOf, ∀ i ∈ c.shows, i.state = c.id) ∧
    (∀ i ∈ listShowsForProfile db p asOf, ∃ c ∈ showsRoute db p asOf,
      c.id = i.state ∧ i ∈ c.shows) ∧
    (∀ c ∈ showsRoute db p asOf,
      List.Pairwise (fun a b : ShowListItem => strLe a.name b.name = true) c.shows) := by
  refine ⟨rfl, rfl, ?_, ?_, ?_⟩
  · intro c hc i hi
    simp only [showsRoute, List.mem_cons, List.not_mem_nil, or_false] at hc
    rcases hc with rfl | rfl | rfl | rfl | rfl | rfl <;>
    · rcases List.mem_filter.mp hi with ⟨himem, hpred⟩
      have hsix := item_state_mem db p asOf i himem
      rw [← bucketIdOf_of_mem _ hsix]
      exact beq_iff_eq.mp hpred
  · intro i hi
    have hsix := item_state_mem db p asOf i hi
    simp only [sixStates, List.mem_cons, List.not_mem_nil, or_false] at hsix
    rcases hsix with hst | hst | hst | hst | hst | hst
    · refine ⟨⟨"queued", "Not Started", (listShowsForProfile db p asOf).filter
        (fun i => bucketIdOf i.state == "queued")⟩, by simp [showsRoute], hst.symm, ?_⟩
      exact List.mem_filter.mpr ⟨hi, by rw [hst]; decide⟩
    · refine ⟨⟨"watch-next", "Watch Next", (listShowsForProfile db p asOf).filter
        (fun i => bucketIdOf i.state == "watch-next")⟩, by simp [showsRoute], hst.symm, ?_⟩
      exact List.mem_filter.mpr ⟨hi, by rw [hst]; decide⟩
    · refine ⟨⟨"watching", "Watching", (listShowsForProfile db p asOf).filter
        (fun i => bucketIdOf i.state == "watching")⟩, by simp [showsRoute], hst.symm, ?_⟩
      exact List.mem_filter.mpr ⟨hi, by rw [hst]; decide⟩
    · refine ⟨⟨"up-to-date", "Up To Date", (listShowsForProfile db p asOf).filter
        (fun i => bucketIdOf i.state == "up-to-date")⟩, by simp [showsRoute], hst.symm, ?_⟩
      exact List.mem_filter.mpr ⟨hi, by rw [hst]; decide⟩
    · refine ⟨⟨"completed", "Finished", (listShowsForProfile db p asOf).filter
        (fun i => bucketIdOf i.state == "completed")⟩, by simp [showsRoute], hst.symm, ?_⟩
      exact List.mem_filter.mpr ⟨hi, by rw [hst]; decide⟩
    · refine ⟨⟨"stopped", "Stopped Watching", (listShowsForProfile db p asOf).filter
        (fun i => bucketIdOf i.state == "stopped")⟩, by simp [showsRoute], hst.symm, ?_⟩
      exact List.mem_filter.mpr ⟨hi, by rw [hst]; decide⟩
  · intro c hc
    simp only [showsRoute, List.mem_cons, List.not_mem_nil, or_false] at hc
    rcases hc with rfl | rfl | rfl | rfl | rfl | rfl <;>
      exact List.Pairwise.sublist (List.filter_sublist _) (items_sorted db p asOf)

end Episodely

namespace Episodely

/-- C4 counterexample: a profile whose only show carries the `"stopped"`
override and has one watched episode, show and episode both present in
the catalog.  The export's show query excludes stopped links, so the
watch mark is not in the document; importing into the fresh profile 2
succeeds but reproduces nothing, while the original profile's pair set is
non-empty. -/
theorem export_import_roundtrip_counterexample :
    (1000, "T") ∈ profilePairs ⟨[⟨1, 100, "A", none⟩],
      [⟨1, 1, 1000, 1, some "2024-01-01"⟩],
      [⟨1, 1, "t0", some "stopped"⟩], [⟨1, 1, "T"⟩]⟩ 1 ∧
    (importShows [⟨⟨100, "A", none⟩, [⟨1000, 1, some "2024-01-01"⟩]⟩] 2 "N"
      (exportToImport (buildProfileExport ⟨[⟨1, 100, "A", none⟩],
        [⟨1, 1, 1000, 1, some "2024-01-01"⟩],
        [⟨1, 1, "t0", some "stopped"⟩], [⟨1, 1, "T"⟩]⟩ 1))
      ⟨[⟨1, 100, "A", none⟩], [⟨1, 1, 1000, 1, some "2024-01-01"⟩],
        [⟨1, 1, "t0", some "stopped"⟩], [⟨1, 1, "T"⟩]⟩).1 = 200 ∧
    (1000, "T") ∉ profilePairs (importShows [⟨⟨100, "A", none⟩,
        [⟨1000, 1, some "2024-01-01"⟩]⟩] 2 "N"
      (exportToImport (buildProfileExport ⟨[⟨1, 100, "A", none⟩],
        [⟨1, 1, 1000, 1, some "2024-01-01"⟩],
        [⟨1, 1, "t0", some "stopped"⟩], [⟨1, 1, "T"⟩]⟩ 1))
      ⟨[⟨1, 100, "A", none⟩], [⟨1, 1, 1000, 1, some "2024-01-01"⟩],
        [⟨1, 1, "t0", some "stopped"⟩], [⟨1, 1, "T"⟩]⟩).2 2 := by
  decide

theorem preserved_trans {a b c : Db} (h1 : EpisodesPreserved a b)
    (h2 : EpisodesPreserved b c) : EpisodesPreserved a c := by
  intro e he
  rcases h1 e he with ⟨e2, he2, hid, htv⟩
  rcases h2 e2 he2 with ⟨e3, he3, hid', htv'⟩
  exact ⟨e3, he3, hid'.trans hid, htv'.trans htv⟩

theorem foldl_max_le (l : List Nat) : ∀ (a : Nat), (∀ x ∈ l, x ≤ l.foldl max a) ∧
    a ≤ l.foldl max a := by
  induction l with
  | nil => intro a; exact ⟨fun x hx => absurd hx (List.not_mem_nil x), le_refl a⟩
  | cons b t ih =>
    intro a
    refine ⟨?_, ?_⟩
    · intro x hx
      rcases List.mem_cons.mp hx with rfl | hx'
      · exact le_trans (le_max_right a x) ((ih (max a x)).2)
      · exact (ih (max a b)).1 x hx'
    · exact le_trans (le_max_left a b) ((ih (max a b)).2)

theorem fresh_not_mem (l : List Nat) : l.foldl max 0 + 1 ∉ l := by
  intro hmem
  have := (foldl_max_le l 0).1 _ hmem
  omega

end Episodely

namespace Episodely

theorem upsertEpisodeRow_marks (db : Db) (sid : Nat) (ce : CatalogEpisode) :
    (upsertEpisodeRow db sid ce).profileEpisodes = db.profileEpisodes ∧
    (upsertEpisodeRow db sid ce).profileShows = db.profileShows ∧
    (upsertEpisodeRow db sid ce).shows = db.shows := by
  unfold upsertEpisodeRow
  split <;> exact ⟨rfl, rfl, rfl⟩

theorem upsertEpisodeRow_ids (db : Db) (sid : Nat) (ce : CatalogEpisode) :
    ((db.episodes.map (fun e =>
        if e.tvmaze_id == ce.tvmaze_id then
          (⟨e.id, sid, e.tvmaze_id, ce.season, ce.airdate⟩ : EpisodeRow) else e)).map
      (fun e => e.id)) = db.episodes.map (fun e => e.id) ∧
    ((db.episodes.map (fun e =>
        if e.tvmaze_id == ce.tvmaze_id then
          (⟨e.id, sid, e.tvmaze_id, ce.season, ce.airdate⟩ : EpisodeRow) else e)).map
      (fun e => e.tvmaze_id)) = db.episodes.map (fun e => e.tvmaze_id) := by
  constructor <;>
  · induction db.episodes with
    | nil => rfl
    | cons a t ih =>
      simp only [List.map_cons, ih]
      congr 1
      by_cases ha : (a.tvmaze_id == ce.tvmaze_id) = true
      · rw [if_pos ha]
      · rw [if_neg ha]

theorem upsertEpisodeRow_pres (db : Db) (sid : Nat) (ce : CatalogEpisode) :
    EpisodesPreserved db (upsertEpisodeRow db sid ce) := by
  intro e he
  unfold upsertEpisodeRow
  split
  · refine ⟨if e.tvmaze_id == ce.tvmaze_id then
      ⟨e.id, sid, e.tvmaze_id, ce.season, ce.airdate⟩ else e, ?_, ?_⟩
    · exact List.mem_map.mpr ⟨e, he, rfl⟩
    · by_cases h : (e.tvmaze_id == ce.tvmaze_id) = true
      · rw [if_pos h]
        exact ⟨rfl, rfl⟩
      · rw [if_neg h]
        exact ⟨rfl, rfl⟩
  · exact ⟨e, List.mem_append_left _ he, rfl, rfl⟩

theorem upsertEpisodeRow_wf (db : Db) (sid : Nat) (ce : CatalogEpisode)
    (hwf : EpisodeTablesWf db) : EpisodeTablesWf (upsertEpisodeRow db sid ce) := by
  unfold upsertEpisodeRow EpisodeTablesWf
  split
  · rw [(upsertEpisodeRow_ids db sid ce).1, (upsertEpisodeRow_ids db sid ce).2]
    exact hwf
  · rename_i hany
    constructor
    · rw [List.map_append, List.nodup_append]
      refine ⟨hwf.1, List.nodup_singleton _, ?_⟩
      intro x hx hx'
      rcases List.mem_singleton.mp hx' with rfl
      exact absurd hx (by
        unfold freshEpisodeId
        exact fresh_not_mem _)
    · rw [List.map_append, List.nodup_append]
      refine ⟨hwf.2, List.nodup_singleton _, ?_⟩
      intro x hx hx'
      rcases List.mem_singleton.mp hx' with rfl
      rcases List.mem_map.mp hx with ⟨e0, he0, htv⟩
      have hb : (e0.tvmaze_id == ce.tvmaze_id) = true := by
        simp [show e0.tvmaze_id = ce.tvmaze_id from htv]
      exact hany (List.any_eq_true.mpr ⟨e0, he0, hb⟩)

theorem foldUpsertEpisodes (sid : Nat) :
    ∀ (ces : List CatalogEpisode) (acc : Db),
      (ces.foldl (fun a ce => upsertEpisodeRow a sid ce) acc).profileEpisodes =
        acc.profileEpisodes ∧
      (ces.foldl (fun a ce => upsertEpisodeRow a sid ce) acc).profileShows =
        acc.profileShows ∧
      (ces.foldl (fun a ce => upsertEpisodeRow a sid ce) acc).shows = acc.shows ∧
      EpisodesPreserved acc (ces.foldl (fun a ce => upsertEpisodeRow a sid ce) acc) ∧
      (EpisodeTablesWf acc →
        EpisodeTablesWf (ces.foldl (fun a ce => upsertEpisodeRow a sid ce) acc)) := by
  intro ces
  induction ces with
  | nil =>
    intro acc
    exact ⟨rfl, rfl, rfl, fun e he => ⟨e, he, rfl, rfl⟩, fun h => h⟩
  | cons ce rest ih =>
    intro acc
    rw [List.foldl_cons]
    rcases ih (upsertEpisodeRow acc sid ce) with ⟨h1, h2, h3, h4, h5⟩
    rcases upsertEpisodeRow_marks acc sid ce with ⟨m1, m2, m3⟩
    exact ⟨h1.trans m1, h2.trans m2, h3.trans m3,
      preserved_trans (upsertEpisodeRow_pres acc sid ce) h4,
      fun hwf => h5 (upsertEpisodeRow_wf acc sid ce hwf)⟩

theorem upsertShow_facts (db : Db) (catalog : List CatalogEntry) (tvId : Nat)
    (sid : Nat) (db2 : Db)
    (h : upsertShowWithEpisodes db catalog tvId = some (sid, db2)) :
    db2.profileEpisodes = db.profileEpisodes ∧
    db2.profileShows = db.profileShows ∧
    EpisodesPreserved db db2 ∧
    (EpisodeTablesWf db → EpisodeTablesWf db2) := by
  unfold upsertShowWithEpisodes at h
  rcases hcat : catalog.find? (fun c => c.cshow.tvmaze_id == tvId) with _ | entry
  · rw [hcat] at h
    cases h
  · rw [hcat] at h
    simp only [Option.some.injEq, Prod.mk.injEq] at h
    rcases h with ⟨-, hdb⟩
    subst hdb
    rcases hshow : db.shows.find? (fun s => s.tvmaze_id == entry.cshow.tvmaze_id) with
      _ | srow
    all_goals
      rw [hshow]
      rcases foldUpsertEpisodes _ entry.episodes _ with ⟨h1, h2, h3, h4, h5⟩
      exact ⟨h1, h2, h4, h5⟩

end Episodely

namespace Episodely

theorem resolve_of_pres {db0 dbc : Db} (hpres : EpisodesPreserved db0 dbc)
    (hwf : EpisodeTablesWf dbc) {e : EpisodeRow} (he : e ∈ db0.episodes) :
    ∃ er, dbc.episodes.find? (fun x => x.tvmaze_id == e.tvmaze_id) = some er ∧
      er ∈ dbc.episodes ∧ er.id = e.id ∧ er.tvmaze_id = e.tvmaze_id := by
  rcases hpres e he with ⟨e2, he2, hid, htv⟩
  rcases hfind : dbc.episodes.find? (fun x => x.tvmaze_id == e.tvmaze_id) with _ | er
  · exfalso
    have := List.find?_eq_none.mp hfind e2 he2
    simp [htv] at this
  · have hermem : er ∈ dbc.episodes := List.mem_of_find?_eq_some hfind
    have herp : (er.tvmaze_id == e.tvmaze_id) = true := (List.find?_eq_some.mp hfind).1
    have hertv : er.tvmaze_id = e.tvmaze_id := by simpa using herp
    have her2 : er = e2 :=
      List.inj_on_of_nodup_map hwf.2 hermem he2 (hertv.trans htv.symm)
    exact ⟨er, hfind, hermem, her2 ▸ hid, hertv⟩

theorem insertOrIgnoreLink_facts (db : Db) (p sid : Nat) (c : String) :
    (insertOrIgnoreLink db p sid c).episodes = db.episodes ∧
    (insertOrIgnoreLink db p sid c).profileEpisodes = db.profileEpisodes ∧
    (insertOrIgnoreLink db p sid c).shows = db.shows := by
  unfold insertOrIgnoreLink
  split <;> exact ⟨rfl, rfl, rfl⟩

theorem mem_upsertMark {marks : List ProfileEpisodeRow} {p e : Nat} {now : String}
    {m : ProfileEpisodeRow} (h : m ∈ upsertMark marks p e now) :
    m ∈ marks ∨ m = ⟨p, e, now⟩ := by
  unfold upsertMark at h
  split at h
  · rcases List.mem_map.mp h with ⟨m0, hm0, heq⟩
    by_cases hk : (m0.profile_id == p && m0.episode_id == e) = true
    · rw [if_pos hk] at heq
      simp only [Bool.and_eq_true, beq_iff_eq] at hk
      right
      rw [← heq, hk.1, hk.2]
    · rw [if_neg hk] at heq
      left
      rw [← heq]
      exact hm0
  · rcases List.mem_append.mp h with h' | h'
    · exact Or.inl h'
    · exact Or.inr (List.mem_singleton.mp h')

theorem applyImportMarks_tables (p2 : Nat) (now : String) :
    ∀ (weps : List ImportEpisodeEntry) (dbc : Db),
      (applyImportMarks p2 now weps dbc).episodes = dbc.episodes ∧
      (applyImportMarks p2 now weps dbc).shows = dbc.shows ∧
      (applyImportMarks p2 now weps dbc).profileShows = dbc.profileShows := by
  intro weps
  induction weps with
  | nil => intro dbc; exact ⟨rfl, rfl, rfl⟩
  | cons we rest ih =>
    intro dbc
    simp only [applyImportMarks]
    have key : ∀ d : Db, d.episodes = dbc.episodes → d.shows = dbc.shows →
        d.profileShows = dbc.profileShows →
        (applyImportMarks p2 now rest d).episodes = dbc.episodes ∧
        (applyImportMarks p2 now rest d).shows = dbc.shows ∧
        (applyImportMarks p2 now rest d).profileShows = dbc.profileShows := by
      intro d h1 h2 h3
      rcases ih d with ⟨i1, i2, i3⟩
      exact ⟨i1.trans h1, i2.trans h2, i3.trans h3⟩
    apply key <;>
    · split
      · rfl
      · split
        · rfl
        · rfl

end Episodely

namespace Episodely

theorem applyImportMarks_sets (p2 : Nat) (now : String) (tv eid : Nat) (w : String)
    (htv : tv ≠ 0) :
    ∀ (weps : List ImportEpisodeEntry) (dbc : Db),
      EpisodeTablesWf dbc →
      (∃ er ∈ dbc.episodes, er.id = eid ∧ er.tvmaze_id = tv) →
      (∀ we ∈ weps, we.tvmazeEpisodeId = tv → jsOrStr we.watchedAt now = w) →
      ((∃ we ∈ weps, we.tvmazeEpisodeId = tv) ∨
        getMark dbc.profileEpisodes p2 eid = some w) →
      getMark (applyImportMarks p2 now weps dbc).profileEpisodes p2 eid = some w := by
  intro weps
  induction weps with
  | nil =>
    intro dbc _ _ _ hstart
    rcases hstart with ⟨we, hwe, _⟩ | h
    · cases hwe
    · exact h
  | cons we rest ih =>
    intro dbc hwf havail hwrites hstart
    rcases havail with ⟨er, hermem, herid, hertv⟩
    simp only [applyImportMarks]
    by_cases hwe : we.tvmazeEpisodeId = tv
    · have h0 : (we.tvmazeEpisodeId == 0) = false := by
        simp [hwe, htv]
      rw [if_neg (by simp [h0])]
      have hpres : EpisodesPreserved dbc dbc := fun e he => ⟨e, he, rfl, rfl⟩
      rcases resolve_of_pres hpres hwf hermem with ⟨r, hfind, hrmem, hrid, hrtv⟩
      rw [hertv, ← hwe] at hfind
      simp only [hfind]
      have hval : jsOrStr we.watchedAt now = w :=
        hwrites we (List.mem_cons_self _ _) hwe
      refine ih _ ?_ ?_ ?_ ?_
      · exact hwf
      · exact ⟨er, hermem, herid, hertv⟩
      · exact fun we' hwe' => hwrites we' (List.mem_cons_of_mem _ hwe')
      · right
        show getMark (upsertMark dbc.profileEpisodes p2 r.id (jsOrStr we.watchedAt now))
          p2 eid = some w
        rw [hrid, herid, getMark_upsert_self, hval]
    · have hstart' : (∃ we' ∈ rest, we'.tvmazeEpisodeId = tv) ∨
          getMark dbc.profileEpisodes p2 eid = some w := by
        rcases hstart with ⟨we', hwe', htv'⟩ | h
        · rcases List.mem_cons.mp hwe' with rfl | hr
          · exact absurd htv' hwe
          · exact Or.inl ⟨we', hr, htv'⟩
        · exact Or.inr h
      by_cases h0 : (we.tvmazeEpisodeId == 0) = true
      · rw [if_pos h0]
        exact ih dbc hwf ⟨er, hermem, herid, hertv⟩
          (fun we' hwe' => hwrites we' (List.mem_cons_of_mem _ hwe')) hstart'
      · rw [if_neg h0]
        rcases hfind : dbc.episodes.find? (fun x =>
            x.tvmaze_id == we.tvmazeEpisodeId) with _ | r
        · simp only [hfind]
          exact ih dbc hwf ⟨er, hermem, herid, hertv⟩
            (fun we' hwe' => hwrites we' (List.mem_cons_of_mem _ hwe')) hstart'
        · simp only [hfind]
          have hrmem : r ∈ dbc.episodes := List.mem_of_find?_eq_some hfind
          have hrtv : r.tvmaze_id = we.tvmazeEpisodeId := by
            simpa using (List.find?_eq_some.mp hfind).1
          have hrid : r.id ≠ eid := by
            intro hreq
            have hre : r = er := List.inj_on_of_nodup_map hwf.1 hrmem hermem
              (hreq.trans herid.symm)
            apply hwe
            rw [← hrtv, hre, hertv]
          refine ih _ ?_ ?_ ?_ ?_
          · exact hwf
          · exact ⟨er, hermem, herid, hertv⟩
          · exact fun we' hwe' => hwrites we' (List.mem_cons_of_mem _ hwe')
          · rcases hstart' with hinl | h
            · exact Or.inl hinl
            · right
              show getMark (upsertMark dbc.profileEpisodes p2 r.id
                (jsOrStr we.watchedAt now)) p2 eid = some w
              rw [getMark_upsert_other _ _ _ _ _ _ (fun hx => hrid hx.2.symm)]
              exact h

end Episodely

namespace Episodely

theorem applyImportMarks_just (p2 : Nat) (now : String) (J : Nat → String → Prop) :
    ∀ (weps : List ImportEpisodeEntry) (dbc : Db),
      (∀ we ∈ weps, we.tvmazeEpisodeId ≠ 0 →
        J we.tvmazeEpisodeId (jsOrStr we.watchedAt now)) →
      (∀ m ∈ dbc.profileEpisodes, m.profile_id = p2 →
        ∃ er ∈ dbc.episodes, er.id = m.episode_id ∧ J er.tvmaze_id m.watched_at) →
      ∀ m ∈ (applyImportMarks p2 now weps dbc).profileEpisodes, m.profile_id = p2 →
        ∃ er ∈ (applyImportMarks p2 now weps dbc).episodes, er.id = m.episode_id ∧
          J er.tvmaze_id m.watched_at := by
  intro weps
  induction weps with
  | nil =>
    intro dbc _ hJdb
    exact hJdb
  | cons we rest ih =>
    intro dbc hJweps hJdb
    simp only [applyImportMarks]
    by_cases h0 : (we.tvmazeEpisodeId == 0) = true
    · rw [if_pos h0]
      exact ih dbc (fun we' hwe' => hJweps we' (List.mem_cons_of_mem _ hwe')) hJdb
    · rw [if_neg h0]
      rcases hfind : dbc.episodes.find? (fun x =>
          x.tvmaze_id == we.tvmazeEpisodeId) with _ | r
      · simp only [hfind]
        exact ih dbc (fun we' hwe' => hJweps we' (List.mem_cons_of_mem _ hwe')) hJdb
      · simp only [hfind]
        have hrmem : r ∈ dbc.episodes := List.mem_of_find?_eq_some hfind
        have hrtv : r.tvmaze_id = we.tvmazeEpisodeId := by
          simpa using (List.find?_eq_some.mp hfind).1
        refine ih _ (fun we' hwe' => hJweps we' (List.mem_cons_of_mem _ hwe')) ?_
        intro m hm hmp
        rcases mem_upsertMark hm with hmem | hnew
        · exact hJdb m hmem hmp
        · refine ⟨r, hrmem, ?_, ?_⟩
          · rw [hnew]
          · rw [hnew, hrtv]
            exact hJweps we (List.mem_cons_self _ _) (by simpa using h0)
  
end Episodely

namespace Episodely

theorem pres_refl (a : Db) : EpisodesPreserved a a := fun e he => ⟨e, he, rfl, rfl⟩

theorem pres_of_episodes_eq {a b : Db} (h : b.episodes = a.episodes) :
    EpisodesPreserved a b := fun e he => ⟨e, h ▸ he, rfl, rfl⟩

theorem wf_of_episodes_eq {a b : Db} (h : b.episodes = a.episodes)
    (hw : EpisodeTablesWf a) : EpisodeTablesWf b := by
  unfold EpisodeTablesWf at hw ⊢
  rw [h]
  exact hw

theorem importShowEntry_isSome (catalog : List CatalogEntry) (p2 : Nat) (now : String)
    (dbc : Db) (entry : ImportShowEntry)
    (hc : (catalog.find? (fun c => c.cshow.tvmaze_id == entry.tvmazeId)).isSome = true) :
    ∃ db2, importShowEntry catalog p2 now dbc entry = some db2 := by
  unfold importShowEntry upsertShowWithEpisodes
  rcases hfind : catalog.find? (fun c => c.cshow.tvmaze_id == entry.tvmazeId) with _ | e
  · rw [hfind] at hc
    cases hc
  · simp only [hfind]
    exact ⟨_, rfl⟩

theorem importShowEntry_pres (catalog : List CatalogEntry) (p2 : Nat) (now : String)
    (dbc db2 : Db) (entry : ImportShowEntry)
    (h : importShowEntry catalog p2 now dbc entry = some db2) :
    EpisodesPreserved dbc db2 ∧ (EpisodeTablesWf dbc → EpisodeTablesWf db2) := by
  unfold importShowEntry at h
  rcases hup : upsertShowWithEpisodes dbc catalog entry.tvmazeId with _ | r
  · rw [hup] at h
    cases h
  · rw [hup] at h
    simp only [Option.some.injEq] at h
    subst h
    rcases upsertShow_facts dbc catalog entry.tvmazeId r.1 r.2 hup with ⟨-, -, hp, hw⟩
    rcases insertOrIgnoreLink_facts r.2 p2 r.1 (jsOrStr entry.addedAt now) with ⟨hle, -, -⟩
    have hplink : EpisodesPreserved dbc (insertOrIgnoreLink r.2 p2 r.1
        (jsOrStr entry.addedAt now)) :=
      preserved_trans hp (pres_of_episodes_eq hle)
    have hwlink : EpisodeTablesWf dbc → EpisodeTablesWf (insertOrIgnoreLink r.2 p2 r.1
        (jsOrStr entry.addedAt now)) :=
      fun hwf => wf_of_episodes_eq hle (hw hwf)
    rcases hweps : entry.watchedEpisodes with _ | weps
    · simp only [hweps]
      exact ⟨hplink, hwlink⟩
    · simp only [hweps]
      rcases applyImportMarks_tables p2 now weps (insertOrIgnoreLink r.2 p2 r.1
        (jsOrStr entry.addedAt now)) with ⟨hae, -, -⟩
      exact ⟨preserved_trans hplink (pres_of_episodes_eq hae),
        fun hwf => wf_of_episodes_eq hae (hwlink hwf)⟩

theorem importShowEntry_marks_eq (catalog : List CatalogEntry) (p2 : Nat) (now : String)
    (dbc : Db) (entry : ImportShowEntry) (r : Nat × Db)
    (hup : upsertShowWithEpisodes dbc catalog entry.tvmazeId = some r) :
    (insertOrIgnoreLink r.2 p2 r.1 (jsOrStr entry.addedAt now)).profileEpisodes =
      dbc.profileEpisodes := by
  rcases upsertShow_facts dbc catalog entry.tvmazeId r.1 r.2 hup with ⟨hm, -, -, -⟩
  rcases insertOrIgnoreLink_facts r.2 p2 r.1 (jsOrStr entry.addedAt now) with ⟨-, hlm, -⟩
  exact hlm.trans hm

theorem importShowEntry_sets (catalog : List CatalogEntry) (p2 : Nat) (now : String)
    (tv eid : Nat) (w : String) (htv : tv ≠ 0)
    (dbc db2 : Db) (entry : ImportShowEntry)
    (h : importShowEntry catalog p2 now dbc entry = some db2)
    (hwf : EpisodeTablesWf dbc)
    (havail : ∃ er ∈ dbc.episodes, er.id = eid ∧ er.tvmaze_id = tv)
    (hwrites : ∀ weps, entry.watchedEpisodes = some weps →
      ∀ we ∈ weps, we.tvmazeEpisodeId = tv → jsOrStr we.watchedAt now = w)
    (hstart : (∃ weps, entry.watchedEpisodes = some weps ∧
        ∃ we ∈ weps, we.tvmazeEpisodeId = tv) ∨
      getMark dbc.profileEpisodes p2 eid = some w) :
    getMark db2.profileEpisodes p2 eid = some w := by
  unfold importShowEntry at h
  rcases hup : upsertShowWithEpisodes dbc catalog entry.tvmazeId with _ | r
  · rw [hup] at h
    cases h
  · rw [hup] at h
    simp only [Option.some.injEq] at h
    subst h
    have hmeq := importShowEntry_marks_eq catalog p2 now dbc entry r hup
    rcases upsertShow_facts dbc catalog entry.tvmazeId r.1 r.2 hup with ⟨-, -, hp, hw⟩
    rcases insertOrIgnoreLink_facts r.2 p2 r.1 (jsOrStr entry.addedAt now) with ⟨hle, -, -⟩
    have hwfl : EpisodeTablesWf (insertOrIgnoreLink r.2 p2 r.1
        (jsOrStr entry.addedAt now)) := wf_of_episodes_eq hle (hw hwf)
    have havl : ∃ er ∈ (insertOrIgnoreLink r.2 p2 r.1
        (jsOrStr entry.addedAt now)).episodes, er.id = eid ∧ er.tvmaze_id = tv := by
      rcases havail with ⟨er, hermem, h1, h2⟩
      rcases preserved_trans hp (pres_of_episodes_eq hle) er hermem with ⟨e2, he2, g1, g2⟩
      exact ⟨e2, he2, g1.trans h1, g2.trans h2⟩
    rcases hweps : entry.watchedEpisodes with _ | weps
    · simp only [hweps]
      rcases hstart with ⟨weps', hsome, -⟩ | hdone
      · rw [hweps] at hsome
        cases hsome
      · rw [hmeq]
        exact hdone
    · simp only [hweps]
      apply applyImportMarks_sets p2 now tv eid w htv weps _ hwfl havl
        (hwrites weps hweps)
      rcases hstart with ⟨weps', hsome, hwit⟩ | hdone
      · rw [hweps] at hsome
        injection hsome with hsome
        subst hsome
        exact Or.inl hwit
      · right
        rw [hmeq]
        exact hdone

end Episodely

namespace Episodely

theorem importShowEntry_just (catalog : List CatalogEntry) (p2 : Nat) (now : String)
    (J : Nat → String → Prop) (dbc db2 : Db) (entry : ImportShowEntry)
    (h : importShowEntry catalog p2 now dbc entry = some db2)
    (hJweps : ∀ weps, entry.watchedEpisodes = some weps →
      ∀ we ∈ weps, we.tvmazeEpisodeId ≠ 0 →
        J we.tvmazeEpisodeId (jsOrStr we.watchedAt now))
    (hJdb : ∀ m ∈ dbc.profileEpisodes, m.profile_id = p2 →
      ∃ er ∈ dbc.episodes, er.id = m.episode_id ∧ J er.tvmaze_id m.watched_at) :
    ∀ m ∈ db2.profileEpisodes, m.profile_id = p2 →
      ∃ er ∈ db2.episodes, er.id = m.episode_id ∧ J er.tvmaze_id m.watched_at := by
  unfold importShowEntry at h
  rcases hup : upsertShowWithEpisodes dbc catalog entry.tvmazeId with _ | r
  · rw [hup] at h
    cases h
  · rw [hup] at h
    simp only [Option.some.injEq] at h
    subst h
    have hmeq := importShowEntry_marks_eq catalog p2 now dbc entry r hup
    rcases upsertShow_facts dbc catalog entry.tvmazeId r.1 r.2 hup with ⟨-, -, hp, -⟩
    rcases insertOrIgnoreLink_facts r.2 p2 r.1 (jsOrStr entry.addedAt now) with ⟨hle, -, -⟩
    have hJlink : ∀ m ∈ (insertOrIgnoreLink r.2 p2 r.1
        (jsOrStr entry.addedAt now)).profileEpisodes, m.profile_id = p2 →
        ∃ er ∈ (insertOrIgnoreLink r.2 p2 r.1
          (jsOrStr entry.addedAt now)).episodes,
          er.id = m.episode_id ∧ J er.tvmaze_id m.watched_at := by
      intro m hm hmp
      rw [hmeq] at hm
      rcases hJdb m hm hmp with ⟨er, hermem, h1, h2⟩
      rcases preserved_trans hp (pres_of_episodes_eq hle) er hermem with ⟨e2, he2, g1, g2⟩
      exact ⟨e2, he2, g1.trans h1, g2 ▸ h2⟩
    rcases hweps : entry.watchedEpisodes with _ | weps
    · simp only [hweps]
      exact hJlink
    · simp only [hweps]
      exact applyImportMarks_just p2 now J weps _ (hJweps weps hweps) hJlink

theorem importShows_ok (catalog : List CatalogEntry) (p2 : Nat) (now : String) :
    ∀ (entries : List ImportShowEntry) (dbc : Db),
      (∀ entry ∈ entries, entry.tvmazeId ≠ 0 →
        (catalog.find? (fun c => c.cshow.tvmaze_id == entry.tvmazeId)).isSome = true) →
      (importShows catalog p2 now entries dbc).1 = 200 := by
  intro entries
  induction entries with
  | nil => intro dbc _; rfl
  | cons entry rest ih =>
    intro dbc hcat
    simp only [importShows]
    by_cases h0 : (entry.tvmazeId == 0) = true
    · rw [if_pos h0]
      exact ih dbc (fun e he => hcat e (List.mem_cons_of_mem _ he))
    · rw [if_neg h0]
      rcases importShowEntry_isSome catalog p2 now dbc entry
          (hcat entry (List.mem_cons_self _ _) (by simpa using h0)) with ⟨db2, hsome⟩
      rw [hsome]
      exact ih db2 (fun e he => hcat e (List.mem_cons_of_mem _ he))

theorem importShows_pres (catalog : List CatalogEntry) (p2 : Nat) (now : String) :
    ∀ (entries : List ImportShowEntry) (dbc : Db),
      EpisodesPreserved dbc (importShows catalog p2 now entries dbc).2 ∧
      (EpisodeTablesWf dbc →
        EpisodeTablesWf (importShows catalog p2 now entries dbc).2) := by
  intro entries
  induction entries with
  | nil => intro dbc; exact ⟨pres_refl dbc, fun h => h⟩
  | cons entry rest ih =>
    intro dbc
    simp only [importShows]
    by_cases h0 : (entry.tvmazeId == 0) = true
    · rw [if_pos h0]
      exact ih dbc
    · rw [if_neg h0]
      rcases hsome : importShowEntry catalog p2 now dbc entry with _ | db2
      · exact ⟨pres_refl dbc, fun h => h⟩
      · rcases importShowEntry_pres catalog p2 now dbc db2 entry hsome with ⟨hp, hw⟩
        rcases ih db2 with ⟨hp', hw'⟩
        exact ⟨preserved_trans hp hp', fun h => hw' (hw h)⟩

theorem importShows_sets (catalog : List CatalogEntry) (p2 : Nat) (now : String)
    (tv eid : Nat) (w : String) (htv : tv ≠ 0) :
    ∀ (entries : List ImportShowEntry) (dbc : Db),
      EpisodeTablesWf dbc →
      (∃ er ∈ dbc.episodes, er.id = eid ∧ er.tvmaze_id = tv) →
      (∀ entry ∈ entries, entry.tvmazeId ≠ 0 →
        (catalog.find? (fun c => c.cshow.tvmaze_id == entry.tvmazeId)).isSome = true) →
      (∀ entry ∈ entries, ∀ weps, entry.watchedEpisodes = some weps →
        ∀ we ∈ weps, we.tvmazeEpisodeId = tv → jsOrStr we.watchedAt now = w) →
      ((∃ entry ∈ entries, entry.tvmazeId ≠ 0 ∧ ∃ weps,
          entry.watchedEpisodes = some weps ∧ ∃ we ∈ weps, we.tvmazeEpisodeId = tv) ∨
        getMark dbc.profileEpisodes p2 eid = some w) →
      getMark (importShows catalog p2 now entries dbc).2.profileEpisodes p2 eid
        = some w := by
  intro entries
  induction entries with
  | nil =>
    intro dbc _ _ _ _ hstart
    rcases hstart with ⟨entry, hmem, _⟩ | h
    · cases hmem
    · exact h
  | cons entry rest ih =>
    intro dbc hwf havail hcat hwrites hstart
    simp only [importShows]
    by_cases h0 : (entry.tvmazeId == 0) = true
    · rw [if_pos h0]
      refine ih dbc hwf havail (fun e he => hcat e (List.mem_cons_of_mem _ he))
        (fun e he => hwrites e (List.mem_cons_of_mem _ he)) ?_
      rcases hstart with ⟨entry', hmem', hnz, hrest⟩ | h
      · rcases List.mem_cons.mp hmem' with rfl | hmem''
        · exact absurd (by simpa using h0) hnz
        · exact Or.inl ⟨entry', hmem'', hnz, hrest⟩
      · exact Or.inr h
    · rw [if_neg h0]
      rcases importShowEntry_isSome catalog p2 now dbc entry
          (hcat entry (List.mem_cons_self _ _) (by simpa using h0)) with ⟨db2, hsome⟩
      rw [hsome]
      rcases importShowEntry_pres catalog p2 now dbc db2 entry hsome with ⟨hp, hw⟩
      have havail2 : ∃ er ∈ db2.episodes, er.id = eid ∧ er.tvmaze_id = tv := by
        rcases havail with ⟨er, hermem, h1, h2⟩
        rcases hp er hermem with ⟨e2, he2, g1, g2⟩
        exact ⟨e2, he2, g1.trans h1, g2.trans h2⟩
      refine ih db2 (hw hwf) havail2 (fun e he => hcat e (List.mem_cons_of_mem _ he))
        (fun e he => hwrites e (List.mem_cons_of_mem _ he)) ?_
      rcases hstart with ⟨entry', hmem', hnz, hwit⟩ | h
      · rcases List.mem_cons.mp hmem' with rfl | hmem''
        · right
          exact importShowEntry_sets catalog p2 now tv eid w htv dbc db2 entry' hsome
            hwf havail (hwrites entry' (List.mem_cons_self _ _)) (Or.inl hwit)
        · exact Or.inl ⟨entry', hmem'', hnz, hwit⟩
      · right
        exact importShowEntry_sets catalog p2 now tv eid w htv dbc db2 entry hsome
          hwf havail (hwrites entry (List.mem_cons_self _ _)) (Or.inr h)

theorem importShows_just (catalog : List CatalogEntry) (p2 : Nat) (now : String)
    (J : Nat → String → Prop) :
    ∀ (entries : List ImportShowEntry) (dbc : Db),
      (∀ entry ∈ entries, ∀ weps, entry.watchedEpisodes = some weps →
        ∀ we ∈ weps, we.tvmazeEpisodeId ≠ 0 →
          J we.tvmazeEpisodeId (jsOrStr we.watchedAt now)) →
      (∀ m ∈ dbc.profileEpisodes, m.profile_id = p2 →
        ∃ er ∈ dbc.episodes, er.id = m.episode_id ∧ J er.tvmaze_id m.watched_at) →
      ∀ m ∈ (importShows catalog p2 now entries dbc).2.profileEpisodes,
        m.profile_id = p2 →
        ∃ er ∈ (importShows catalog p2 now entries dbc).2.episodes,
          er.id = m.episode_id ∧ J er.tvmaze_id m.watched_at := by
  intro entries
  induction entries with
  | nil => intro dbc _ hJdb; exact hJdb
  | cons entry rest ih =>
    intro dbc hJweps hJdb
    simp only [importShows]
    by_cases h0 : (entry.tvmazeId == 0) = true
    · rw [if_pos h0]
      exact ih dbc (fun e he => hJweps e (List.mem_cons_of_mem _ he)) hJdb
    · rw [if_neg h0]
      rcases hsome : importShowEntry catalog p2 now dbc entry with _ | db2
      · exact hJdb
      · exact ih db2 (fun e he => hJweps e (List.mem_cons_of_mem _ he))
          (importShowEntry_just catalog p2 now J dbc db2 entry hsome
            (hJweps entry (List.mem_cons_self _ _)) hJdb)

end Episodely

namespace Episodely

theorem isSome_find?_of_any {α : Type} (pr : α → Bool) (l : List α)
    (h : l.any pr = true) : (l.find? pr).isSome = true := by
  rcases hf : l.find? pr with _ | x
  · exact absurd hf (find?_isSome_of_any pr l h)
  · rfl

theorem mem_profilePairs {db : Db} {p : Nat} {pr : Nat × String} :
    pr ∈ profilePairs db p ↔ ∃ m ∈ db.profileEpisodes, (m.profile_id == p) = true ∧
      ∃ e ∈ db.episodes, (e.id == m.episode_id) = true ∧
        pr = (e.tvmaze_id, m.watched_at) := by
  unfold profilePairs
  constructor
  · intro h
    rcases List.mem_flatMap.mp h with ⟨m, hm, hin⟩
    rcases List.mem_filter.mp hm with ⟨hm1, hm2⟩
    rcases List.mem_map.mp hin with ⟨e, he, heq⟩
    rcases List.mem_filter.mp he with ⟨he1, he2⟩
    exact ⟨m, hm1, hm2, e, he1, he2, heq.symm⟩
  · rintro ⟨m, hm1, hm2, e, he1, he2, rfl⟩
    exact List.mem_flatMap.mpr ⟨m, List.mem_filter.mpr ⟨hm1, hm2⟩,
      List.mem_map.mpr ⟨e, List.mem_filter.mpr ⟨he1, he2⟩, rfl⟩⟩

theorem mem_docShows {db : Db} {p1 : Nat} {se : ExportShowEntry} :
    se ∈ (buildProfileExport db p1).shows ↔
      ∃ ps ∈ db.profileShows,
        (ps.profile_id == p1 && !(ps.status == some "stopped")) = true ∧
        ∃ s ∈ db.shows, (s.id == ps.show_id) = true ∧
          se = ⟨s.tvmaze_id, s.name, ps.created_at,
            (((db.profileEpisodes.filter (fun m => m.profile_id == p1)).flatMap
              (fun m => (db.episodes.filter (fun e => e.id == m.episode_id)).map
                (fun e => (e.show_id, ExportEpisodeEntry.mk e.tvmaze_id m.watched_at)))).filter
              (fun pr => pr.1 == s.id)).map (fun pr => pr.2)⟩ := by
  unfold buildProfileExport
  constructor
  · intro h
    rcases List.mem_map.mp h with ⟨sp, hsp, heq⟩
    rcases List.mem_flatMap.mp hsp with ⟨ps, hps, hin⟩
    rcases List.mem_filter.mp hps with ⟨hps1, hps2⟩
    rcases List.mem_map.mp hin with ⟨s, hs, hseq⟩
    rcases List.mem_filter.mp hs with ⟨hs1, hs2⟩
    refine ⟨ps, hps1, hps2, s, hs1, hs2, ?_⟩
    rw [← heq, ← hseq]
  · rintro ⟨ps, hps1, hps2, s, hs1, hs2, rfl⟩
    exact List.mem_map.mpr ⟨(s, ps), List.mem_flatMap.mpr ⟨ps,
      List.mem_filter.mpr ⟨hps1, hps2⟩,
      List.mem_map.mpr ⟨s, List.mem_filter.mpr ⟨hs1, hs2⟩, rfl⟩⟩, rfl⟩

theorem docPairs_fwd {db : Db} {p1 : Nat} {pr : Nat × String}
    (h : pr ∈ docPairs (buildProfileExport db p1)) : pr ∈ profilePairs db p1 := by
  unfold docPairs at h
  rcases List.mem_flatMap.mp h with ⟨se, hse, hin⟩
  rcases mem_docShows.mp hse with ⟨ps, _, _, s, _, _, rfl⟩
  rcases List.mem_map.mp hin with ⟨we, hwe, hweq⟩
  rcases List.mem_map.mp hwe with ⟨epr, hepr, hepreq⟩
  rcases List.mem_filter.mp hepr with ⟨hepr1, -⟩
  rcases List.mem_flatMap.mp hepr1 with ⟨m, hm, hmin⟩
  rcases List.mem_filter.mp hm with ⟨hm1, hm2⟩
  rcases List.mem_map.mp hmin with ⟨e, he, heeq⟩
  rcases List.mem_filter.mp he with ⟨he1, he2⟩
  refine mem_profilePairs.mpr ⟨m, hm1, hm2, e, he1, he2, ?_⟩
  rw [← hweq, ← hepreq, ← heeq]

theorem docPairs_bwd {db : Db} {p1 : Nat} {pr : Nat × String}
    (hnostop : ∀ ps ∈ db.profileShows, ps.profile_id = p1 → ps.status ≠ some "stopped")
    (hmarks : ∀ m ∈ db.profileEpisodes, m.profile_id = p1 →
      m.watched_at ≠ "" ∧ ∃ e ∈ db.episodes, e.id = m.episode_id ∧ e.tvmaze_id ≠ 0 ∧
        ∃ ps ∈ db.profileShows, ps.profile_id = p1 ∧ ps.show_id = e.show_id)
    (hshow : ∀ ps ∈ db.profileShows, ps.profile_id = p1 →
      ∃ s ∈ db.shows, s.id = ps.show_id)
    (hepId : (db.episodes.map (fun e => e.id)).Nodup)
    (h : pr ∈ profilePairs db p1) : pr ∈ docPairs (buildProfileExport db p1) := by
  rcases mem_profilePairs.mp h with ⟨m, hm1, hm2, e, he1, he2, rfl⟩
  have hmp : m.profile_id = p1 := by simpa using hm2
  rcases hmarks m hm1 hmp with ⟨-, e', he1', hid', -, ps, hps, hpsp, hpss⟩
  have hee : e = e' := by
    apply List.inj_on_of_nodup_map hepId he1 he1'
    show e.id = e'.id
    rw [hid']
    simpa using he2
  subst hee
  have hstop := hnostop ps hps hpsp
  rcases hshow ps hps hpsp with ⟨s, hsmem, hsid⟩
  have hb1 : (ps.profile_id == p1 && !(ps.status == some "stopped")) = true := by
    have hb : (ps.status == some "stopped") = false := beq_eq_false_iff_ne.mpr hstop
    rw [hb, show (ps.profile_id == p1) = true from beq_iff_eq.mpr hpsp]
    rfl
  have hb2 : (s.id == ps.show_id) = true := beq_iff_eq.mpr hsid
  have hbshow : (e.show_id == s.id) = true := by
    apply beq_iff_eq.mpr
    rw [← hpss, hsid]
  unfold docPairs
  apply List.mem_flatMap.mpr
  refine ⟨⟨s.tvmaze_id, s.name, ps.created_at,
    (((db.profileEpisodes.filter (fun m => m.profile_id == p1)).flatMap
      (fun m => (db.episodes.filter (fun e => e.id == m.episode_id)).map
        (fun e => (e.show_id, ExportEpisodeEntry.mk e.tvmaze_id m.watched_at)))).filter
      (fun pr => pr.1 == s.id)).map (fun pr => pr.2)⟩,
    mem_docShows.mpr ⟨ps, hps, hb1, s, hsmem, hb2, rfl⟩, ?_⟩
  apply List.mem_map.mpr
  refine ⟨⟨e.tvmaze_id, m.watched_at⟩, ?_, rfl⟩
  apply List.mem_map.mpr
  refine ⟨(e.show_id, ⟨e.tvmaze_id, m.watched_at⟩), ?_, rfl⟩
  apply List.mem_filter.mpr
  refine ⟨?_, hbshow⟩
  exact List.mem_flatMap.mpr ⟨m, List.mem_filter.mpr ⟨hm1, hm2⟩,
    List.mem_map.mpr ⟨e, List.mem_filter.mpr ⟨he1, he2⟩, rfl⟩⟩

theorem profilePairs_functional {db : Db} {p1 : Nat} {tv : Nat} {w1 w2 : String}
    (hwf : EpisodeTablesWf db)
    (hkeys : (db.profileEpisodes.map markKey).Nodup)
    (h1 : (tv, w1) ∈ profilePairs db p1) (h2 : (tv, w2) ∈ profilePairs db p1) :
    w1 = w2 := by
  rcases mem_profilePairs.mp h1 with ⟨m1, hm11, hm12, e1, he11, he12, heq1⟩
  rcases mem_profilePairs.mp h2 with ⟨m2, hm21, hm22, e2, he21, he22, heq2⟩
  simp only [Prod.mk.injEq] at heq1 heq2
  have hee : e1 = e2 := by
    apply List.inj_on_of_nodup_map hwf.2 he11 he21
    show e1.tvmaze_id = e2.tvmaze_id
    rw [← heq1.1, ← heq2.1]
  have hmm : m1 = m2 := by
    apply List.inj_on_of_nodup_map hkeys hm11 hm21
    show markKey m1 = markKey m2
    unfold markKey
    have hp1 : m1.profile_id = p1 := by simpa using hm12
    have hp2 : m2.profile_id = p1 := by simpa using hm22
    have hid1 : e1.id = m1.episode_id := by simpa using he12
    have hid2 : e2.id = m2.episode_id := by simpa using he22
    rw [hp1, hp2, ← hid1, ← hid2, hee]
  rw [heq1.2, heq2.2, hmm]

theorem profilePairs_truthy {db : Db} {p1 : Nat} {tv : Nat} {w : String}
    (hmarks : ∀ m ∈ db.profileEpisodes, m.profile_id = p1 →
      m.watched_at ≠ "" ∧ ∃ e ∈ db.episodes, e.id = m.episode_id ∧ e.tvmaze_id ≠ 0 ∧
        ∃ ps ∈ db.profileShows, ps.profile_id = p1 ∧ ps.show_id = e.show_id)
    (hepId : (db.episodes.map (fun e => e.id)).Nodup)
    (h : (tv, w) ∈ profilePairs db p1) : w ≠ "" ∧ tv ≠ 0 := by
  rcases mem_profilePairs.mp h with ⟨m, hm1, hm2, e, he1, he2, heq⟩
  simp only [Prod.mk.injEq] at heq
  have hmp : m.profile_id = p1 := by simpa using hm2
  rcases hmarks m hm1 hmp with ⟨hne, e', he1', hid', htv', -⟩
  have hee : e = e' := by
    apply List.inj_on_of_nodup_map hepId he1 he1'
    show e.id = e'.id
    rw [hid']
    simpa using he2
  constructor
  · rw [heq.2]
    exact hne
  · rw [heq.1, hee]
    exact htv'

end Episodely

namespace Episodely

theorem jsOrStr_some_of_ne {x now : String} (h : x ≠ "") : jsOrStr (some x) now = x := by
  show (if (x == "") = true then now else x) = x
  rw [if_neg]
  simpa using h

theorem entries_cat {db : Db} {catalog : List CatalogEntry} {p1 : Nat}
    (hlinks : ∀ ps ∈ db.profileShows, ps.profile_id = p1 →
      ∃ s ∈ db.shows, s.id = ps.show_id ∧ s.tvmaze_id ≠ 0 ∧
        (catalog.any (fun c => c.cshow.tvmaze_id == s.tvmaze_id)) = true)
    (hshowId : (db.shows.map (fun s => s.id)).Nodup) :
    ∀ entry ∈ exportToImport (buildProfileExport db p1), entry.tvmazeId ≠ 0 ∧
      (catalog.find? (fun c => c.cshow.tvmaze_id == entry.tvmazeId)).isSome = true := by
  intro entry hentry
  rcases List.mem_map.mp hentry with ⟨se, hse, heq⟩
  rcases mem_docShows.mp hse with ⟨ps, hps, hpred, s, hsmem, hsid, hseq⟩
  have hpsp : ps.profile_id = p1 := by
    have h' := hpred
    simp only [Bool.and_eq_true, beq_iff_eq] at h'
    exact h'.1
  rcases hlinks ps hps hpsp with ⟨s', hs'mem, hs'id, htv', hcat'⟩
  have hss : s = s' := by
    apply List.inj_on_of_nodup_map hshowId hsmem hs'mem
    show s.id = s'.id
    rw [hs'id]
    simpa using hsid
  have htvid : entry.tvmazeId = s.tvmaze_id := by
    rw [← heq, hseq]
  rw [htvid, hss]
  exact ⟨htv', isSome_find?_of_any _ _ hcat'⟩

theorem entries_pairs {db : Db} {p1 : Nat} :
    ∀ entry ∈ exportToImport (buildProfileExport db p1),
      ∀ weps, entry.watchedEpisodes = some weps →
      ∀ we ∈ weps, ∃ w0 : String, we.watchedAt = some w0 ∧
        (we.tvmazeEpisodeId, w0) ∈ docPairs (buildProfileExport db p1) := by
  intro entry hentry weps hweps we hwe
  rcases List.mem_map.mp hentry with ⟨se, hse, heq⟩
  have hwl : entry.watchedEpisodes =
      some (se.watchedEpisodes.map (fun we0 =>
        (⟨we0.tvmazeEpisodeId, some we0.watchedAt⟩ : ImportEpisodeEntry))) := by
    rw [← heq]
  rw [hwl] at hweps
  injection hweps with hweps
  subst hweps
  rcases List.mem_map.mp hwe with ⟨we0, hwe0, hweq⟩
  refine ⟨we0.watchedAt, by rw [← hweq], ?_⟩
  have : (we0.tvmazeEpisodeId, we0.watchedAt) ∈ docPairs (buildProfileExport db p1) := by
    unfold docPairs
    exact List.mem_flatMap.mpr ⟨se, hse,
      List.mem_map.mpr ⟨we0, hwe0, rfl⟩⟩
  have htvq : we.tvmazeEpisodeId = we0.tvmazeEpisodeId := by
    rw [← hweq]
  rw [htvq]
  exact this

theorem pair_of_getMark {dbf : Db} {p f tv : Nat} {w : String}
    (hg : getMark dbf.profileEpisodes p f = some w)
    (hrow : ∃ er ∈ dbf.episodes, er.id = f ∧ er.tvmaze_id = tv) :
    (tv, w) ∈ profilePairs dbf p := by
  unfold getMark at hg
  rcases hfind : dbf.profileEpisodes.find? (fun m =>
      m.profile_id == p && m.episode_id == f) with _ | m
  · rw [hfind] at hg
    cases hg
  · rw [hfind] at hg
    injection hg with hg
    have hmmem : m ∈ dbf.profileEpisodes := List.mem_of_find?_eq_some hfind
    have hmk := (List.find?_eq_some.mp hfind).1
    simp only [Bool.and_eq_true, beq_iff_eq] at hmk
    rcases hrow with ⟨er, hermem, her1, her2⟩
    refine mem_profilePairs.mpr ⟨m, hmmem, by simp [hmk.1], er, hermem, ?_, ?_⟩
    · apply beq_iff_eq.mpr
      rw [her1, hmk.2]
    · rw [← her2, ← hg]

end Episodely

namespace Episodely

/-- C4 (amended): for a profile whose linked shows carry no `"stopped"`
override, whose shows exist in the catalog, and whose watch marks sit on
episodes of its linked shows (with the table keys duplicate-free as the
schema's PRIMARY KEY / UNIQUE constraints guarantee and the timestamps
non-empty as every writer guarantees), exporting the profile and importing
the document into a fresh profile succeeds and reproduces exactly the
same set of `(catalog episode id, watchedAt)` pairs, independent of
internal row identifiers. -/
theorem export_import_roundtrip (db : Db) (catalog : List CatalogEntry)
    (p1 p2 : Nat) (now : String)
    (hnostop : ∀ ps ∈ db.profileShows, ps.profile_id = p1 → ps.status ≠ some "stopped")
    (hmarks : ∀ m ∈ db.profileEpisodes, m.profile_id = p1 →
      m.watched_at ≠ "" ∧ ∃ e ∈ db.episodes, e.id = m.episode_id ∧ e.tvmaze_id ≠ 0 ∧
        ∃ ps ∈ db.profileShows, ps.profile_id = p1 ∧ ps.show_id = e.show_id)
    (hlinks : ∀ ps ∈ db.profileShows, ps.profile_id = p1 →
      ∃ s ∈ db.shows, s.id = ps.show_id ∧ s.tvmaze_id ≠ 0 ∧
        (catalog.any (fun c => c.cshow.tvmaze_id == s.tvmaze_id)) = true)
    (hwf : EpisodeTablesWf db)
    (hshowId : (db.shows.map (fun s => s.id)).Nodup)
    (hkeys : (db.profileEpisodes.map markKey).Nodup)
    (hfresh : ∀ m ∈ db.profileEpisodes, m.profile_id ≠ p2) :
    (importShows catalog p2 now (exportToImport (buildProfileExport db p1)) db).1 = 200 ∧
    ∀ pr : Nat × String,
      (pr ∈ profilePairs
        (importShows catalog p2 now (exportToImport (buildProfileExport db p1)) db).2 p2 ↔
      pr ∈ profilePairs db p1) := by
  have hcatAll := entries_cat hlinks hshowId
  have hJweps : ∀ entry ∈ exportToImport (buildProfileExport db p1),
      ∀ weps, entry.watchedEpisodes = some weps → ∀ we ∈ weps,
        we.tvmazeEpisodeId ≠ 0 →
        (we.tvmazeEpisodeId, jsOrStr we.watchedAt now) ∈ profilePairs db p1 := by
    intro entry he weps hw we hwe _
    rcases entries_pairs entry he weps hw we hwe with ⟨w0, hw0, hdp⟩
    have hpp := docPairs_fwd hdp
    have htr := (profilePairs_truthy hmarks hwf.1 hpp).1
    rw [hw0, jsOrStr_some_of_ne htr]
    exact hpp
  refine ⟨importShows_ok catalog p2 now _ db (fun e he _ => (hcatAll e he).2), ?_⟩
  rintro ⟨tv, w⟩
  constructor
  · intro h
    rcases mem_profilePairs.mp h with ⟨m, hm1, hm2, e', he1, he2, heq⟩
    simp only [Prod.mk.injEq] at heq
    have hJ := importShows_just catalog p2 now
      (fun tv' w' => (tv', w') ∈ profilePairs db p1)
      (exportToImport (buildProfileExport db p1)) db hJweps
      (fun m0 hm0 hp0 => absurd hp0 (hfresh m0 hm0)) m hm1 (by simpa using hm2)
    rcases hJ with ⟨er, hermem, herid, hJ'⟩
    have hwfF : EpisodeTablesWf
        (importShows catalog p2 now (exportToImport (buildProfileExport db p1)) db).2 :=
      (importShows_pres catalog p2 now _ db).2 hwf
    have hee : e' = er := by
      apply List.inj_on_of_nodup_map hwfF.1 he1 hermem
      show e'.id = er.id
      rw [herid]
      simpa using he2
    rw [heq.1, heq.2, hee]
    exact hJ'
  · intro h
    have htw := profilePairs_truthy hmarks hwf.1 h
    rcases mem_profilePairs.mp h with ⟨m, hm1, hm2, e, he1, he2, heq⟩
    simp only [Prod.mk.injEq] at heq
    have hwitness : ∃ entry ∈ exportToImport (buildProfileExport db p1),
        entry.tvmazeId ≠ 0 ∧ ∃ weps, entry.watchedEpisodes = some weps ∧
          ∃ we ∈ weps, we.tvmazeEpisodeId = tv := by
      have hdp : (tv, w) ∈ docPairs (buildProfileExport db p1) :=
        docPairs_bwd hnostop hmarks
          (fun ps hps hp => by
            rcases hlinks ps hps hp with ⟨s, hs, hsid, -, -⟩
            exact ⟨s, hs, hsid⟩) hwf.1 h
      unfold docPairs at hdp
      rcases List.mem_flatMap.mp hdp with ⟨se, hse, hin⟩
      rcases List.mem_map.mp hin with ⟨we0, hwe0, hpair⟩
      have hentry : (⟨se.tvmazeId, some se.addedAt,
          some (se.watchedEpisodes.map (fun we1 =>
            (⟨we1.tvmazeEpisodeId, some we1.watchedAt⟩ : ImportEpisodeEntry)))⟩ :
          ImportShowEntry) ∈ exportToImport (buildProfileExport db p1) :=
        List.mem_map.mpr ⟨se, hse, rfl⟩
      refine ⟨_, hentry, (hcatAll _ hentry).1, _, rfl, ?_⟩
      refine ⟨⟨we0.tvmazeEpisodeId, some we0.watchedAt⟩,
        List.mem_map.mpr ⟨we0, hwe0, rfl⟩, ?_⟩
      show we0.tvmazeEpisodeId = tv
      have := congrArg Prod.fst hpair
      exact this
    have hwrites : ∀ entry ∈ exportToImport (buildProfileExport db p1),
        ∀ weps, entry.watchedEpisodes = some weps → ∀ we ∈ weps,
          we.tvmazeEpisodeId = tv → jsOrStr we.watchedAt now = w := by
      intro entry hent weps hweps we hwe htveq
      rcases entries_pairs entry hent weps hweps we hwe with ⟨w0, hw0, hdp⟩
      have hpp := docPairs_fwd hdp
      have htr := (profilePairs_truthy hmarks hwf.1 hpp).1
      rw [hw0, jsOrStr_some_of_ne htr]
      have hpp' : (tv, w0) ∈ profilePairs db p1 := by
        rw [← htveq]
        exact hpp
      exact profilePairs_functional hwf hkeys hpp' h
    have hset := importShows_sets catalog p2 now tv e.id w htw.2
      (exportToImport (buildProfileExport db p1)) db hwf
      ⟨e, he1, rfl, heq.1.symm⟩ (fun e' he' _ => (hcatAll e' he').2) hwrites
      (Or.inl hwitness)
    have hrowF : ∃ er ∈ (importShows catalog p2 now
        (exportToImport (buildProfileExport db p1)) db).2.episodes,
        er.id = e.id ∧ er.tvmaze_id = tv := by
      rcases (importShows_pres catalog p2 now _ db).1 e he1 with ⟨er, hermem, h1, h2⟩
      exact ⟨er, hermem, h1, h2.trans heq.1.symm⟩
    exact pair_of_getMark hset hrowF

end Episodely

namespace Episodely

/-- Witness for the amended C4: one non-stopped show with one watched
episode round-trips into fresh profile 2. -/
theorem export_import_roundtrip_witness :
    (importShows [⟨⟨100, "A", none⟩, [⟨1000, 1, some "2024-01-01"⟩]⟩] 2 "N"
      (exportToImport (buildProfileExport ⟨[⟨1, 100, "A", none⟩],
        [⟨1, 1, 1000, 1, some "2024-01-01"⟩], [⟨1, 1, "t0", none⟩],
        [⟨1, 1, "T"⟩]⟩ 1)) ⟨[⟨1, 100, "A", none⟩],
        [⟨1, 1, 1000, 1, some "2024-01-01"⟩], [⟨1, 1, "t0", none⟩],
        [⟨1, 1, "T"⟩]⟩).1 = 200 ∧
    ((1000, "T") ∈ profilePairs (importShows [⟨⟨100, "A", none⟩,
        [⟨1000, 1, some "2024-01-01"⟩]⟩] 2 "N"
      (exportToImport (buildProfileExport ⟨[⟨1, 100, "A", none⟩],
        [⟨1, 1, 1000, 1, some "2024-01-01"⟩], [⟨1, 1, "t0", none⟩],
        [⟨1, 1, "T"⟩]⟩ 1)) ⟨[⟨1, 100, "A", none⟩],
        [⟨1, 1, 1000, 1, some "2024-01-01"⟩], [⟨1, 1, "t0", none⟩],
        [⟨1, 1, "T"⟩]⟩).2 2 ↔
      (1000, "T") ∈ profilePairs ⟨[⟨1, 100, "A", none⟩],
        [⟨1, 1, 1000, 1, some "2024-01-01"⟩], [⟨1, 1, "t0", none⟩],
        [⟨1, 1, "T"⟩]⟩ 1) :=
  ⟨(export_import_roundtrip ⟨[⟨1, 100, "A", none⟩],
      [⟨1, 1, 1000, 1, some "2024-01-01"⟩], [⟨1, 1, "t0", none⟩], [⟨1, 1, "T"⟩]⟩
      [⟨⟨100, "A", none⟩, [⟨1000, 1, some "2024-01-01"⟩]⟩] 1 2 "N"
      (by decide) (by decide) (by decide) ⟨by decide, by decide⟩ (by decide)
      (by decide) (by decide)).1,
   (export_import_roundtrip ⟨[⟨1, 100, "A", none⟩],
      [⟨1, 1, 1000, 1, some "2024-01-01"⟩], [⟨1, 1, "t0", none⟩], [⟨1, 1, "T"⟩]⟩
      [⟨⟨100, "A", none⟩, [⟨1000, 1, some "2024-01-01"⟩]⟩] 1 2 "N"
      (by decide) (by decide) (by decide) ⟨by decide, by decide⟩ (by decide)
      (by decide) (by decide)).2 (1000, "T")⟩

end Episodely
